import Mathlib

/-!
Shallow embedding of the dungeon-crawler simulation core (src/game/1.py).

Conventions of the embedding:
* Python ints are `Int` (or `Nat` where the source only ever holds
  non-negative counters: level, experience, gold, item values).
* Every call to `random.*` in the source becomes an explicit parameter of
  the embedded operation (variance draws, crit rolls, wander rolls,
  level-up stat gains, room choices), so theorems quantify over all
  possible draws.
* The 360-entry `math.cos`/`math.sin` float table of `compute_fov` is
  embedded as a parameter `dirs : List (ℚ × ℚ)`; the only fact the source
  guarantees about the table is `|cos θ| ≤ 1` and `|sin θ| ≤ 1`, which
  appears as a hypothesis where needed.
* Rendering-only fields (sprites, symbols, colors, message text) are
  dropped or abstracted (`Msg` tags stand for the log strings).
-/

namespace Lyceum

/-- Tile terrain classification (`TileType` in the source). -/
inductive TileType where
  | wall
  | floor
  | stairs
  | door
deriving DecidableEq, Repr

/-- Item kinds (`ItemType` in the source). -/
inductive ItemType where
  | health_potion
  | mana_potion
  | sword
  | shield
  | armor
  | ring
  | scroll_fireball
  | scroll_teleport
  | gold
deriving DecidableEq, Repr

/-- Abstract tags for the message-log strings emitted by the source. -/
inductive Msg where
  | critHit
  | hit
  | defeated
  | levelUpMsg
  | goldGain
  | enemyHit
  | died
  | pickedUp
  | inventoryFull
  | healed
  | manaRestored
  | fireballScroll
  | teleported
  | equipped
  | healSpell
  | fireballSpell
  | noTargets
  | insufficientMana
  | descendHint
deriving DecidableEq, Repr

/-- Axis-aligned room rectangle (`Room` dataclass). -/
structure Room where
  x : Nat
  y : Nat
  width : Nat
  height : Nat
deriving DecidableEq, Repr

/-- `Room.center`: `(x + width // 2, y + height // 2)`. -/
def Room.center (r : Room) : Nat × Nat :=
  (r.x + r.width / 2, r.y + r.height / 2)

/-- `Room.inner`: `(x+1, y+1, x+width-1, y+height-1)`. -/
def Room.inner (r : Room) : Nat × Nat × Nat × Nat :=
  (r.x + 1, r.y + 1, r.x + r.width - 1, r.y + r.height - 1)

/-- `Room.intersects` — padded bounding-box overlap test. -/
def Room.intersects (r other : Room) : Bool :=
  decide (r.x ≤ other.x + other.width + 1 ∧
    other.x ≤ r.x + r.width + 1 ∧
    r.y ≤ other.y + other.height + 1 ∧
    other.y ≤ r.y + r.height + 1)

/-- `Item` dataclass (sprite and display name dropped; `value`, `rarity`
are non-negative in every template, so `Nat`). -/
structure Item where
  x : Int
  y : Int
  item_type : ItemType
  value : Nat
  rarity : Nat
deriving DecidableEq, Repr

/-- `Enemy` dataclass (name/symbol/color/sprite dropped). `hp` is `Int`
because the source subtracts damage without a lower clamp. -/
structure Enemy where
  x : Int
  y : Int
  hp : Int
  max_hp : Int
  attack : Nat
  defense : Nat
  exp_value : Nat
  is_boss : Bool
deriving DecidableEq, Repr

/-- `Enemy.is_alive`: `hp > 0`. -/
def Enemy.is_alive (e : Enemy) : Bool :=
  decide (0 < e.hp)

/-- `Player` dataclass (hero-class/sprite fields dropped; the four
`equipped` dict slots become four `Option Item` fields). -/
structure Player where
  x : Int
  y : Int
  hp : Int
  max_hp : Int
  mana : Int
  max_mana : Int
  attack : Nat
  defense : Nat
  magic : Nat
  level : Nat
  exp : Nat
  exp_to_next : Nat
  gold : Nat
  inventory : List Item
  weapon : Option Item
  armor : Option Item
  shield : Option Item
  ring : Option Item
deriving DecidableEq, Repr

/-- `Player.get_total_attack`: base attack plus equipped weapon value. -/
def Player.get_total_attack (p : Player) : Nat :=
  p.attack + (match p.weapon with
    | some it => it.value
    | none => 0)

/-- `Player.get_total_defense`: base defense plus armor and shield values. -/
def Player.get_total_defense (p : Player) : Nat :=
  p.defense + (match p.armor with
    | some it => it.value
    | none => 0) + (match p.shield with
    | some it => it.value
    | none => 0)

/-- `Player.is_alive`: `hp > 0`. -/
def Player.is_alive (p : Player) : Bool :=
  decide (0 < p.hp)

/-- One set of random stat gains drawn by `Player.level_up`
(`randint(5,15)`, `randint(3,10)`, `randint(1,3)`, `randint(1,2)`,
`randint(1,3)` — all non-negative, hence `Nat`). -/
structure Gains where
  hpG : Nat
  manaG : Nat
  atkG : Nat
  defG : Nat
  magG : Nat
deriving DecidableEq, Repr

/-- Default draw used to pad a too-short gains list (the source can draw
as many as it needs; theorems quantify over the supplied list). -/
def defaultGains : Gains := ⟨0, 0, 0, 0, 0⟩

/-- `Player.level_up` with the five random draws passed in explicitly.
`int(exp_to_next * 1.5)` is `exp_to_next * 3 / 2` (exact for the values
reachable from the initial threshold 100, far below float precision
loss). HP and mana are topped up by their gains, clamped to the new max. -/
def Player.level_up (p : Player) (g : Gains) : Player :=
  { p with
    level := p.level + 1
    exp_to_next := p.exp_to_next * 3 / 2
    max_hp := p.max_hp + g.hpG
    hp := min (p.hp + g.hpG) (p.max_hp + g.hpG)
    max_mana := p.max_mana + g.manaG
    mana := min (p.mana + g.manaG) (p.max_mana + g.manaG)
    attack := p.attack + g.atkG
    defense := p.defense + g.defG
    magic := p.magic + g.magG }

/-- The `while self.exp >= self.exp_to_next` loop of `Player.gain_exp`.
The source's loop terminates because every reachable threshold is ≥ 1
(initially 100, and `t * 3 / 2 ≥ 1` for `t ≥ 1`); the `0 < p.exp_to_next`
conjunct makes that termination argument explicit. Returns the player,
the `leveled_up` flag, and the unconsumed random draws. -/
def gain_exp_loop (p : Player) (gs : List Gains) (leveled : Bool) :
    Player × Bool × List Gains :=
  if h : p.exp_to_next ≤ p.exp ∧ 0 < p.exp_to_next then
    gain_exp_loop
      (Player.level_up { p with exp := p.exp - p.exp_to_next }
        (gs.headD defaultGains))
      gs.tail true
  else
    (p, leveled, gs)
termination_by p.exp
decreasing_by
  simp only [Player.level_up]
  omega

/-- `Player.gain_exp(amount)`: accumulate, then run the level-up loop. -/
def Player.gain_exp (p : Player) (amount : Nat) (gs : List Gains) :
    Player × Bool × List Gains :=
  gain_exp_loop { p with exp := p.exp + amount } gs false

/-- Melee damage formula shared by both directions:
`max(1, attack - defense + randint(-2, 2))`. -/
def melee_damage (atk dfn variance : Int) : Int :=
  max 1 (atk - dfn + variance)

/-- Damage dealt by the player in `attack_enemy`: the melee formula,
doubled when the 15% crit roll succeeds (`damage *= 2` happens after the
`max(1, ·)` clamp). -/
def player_attack_damage (atk dfn variance : Int) (crit : Bool) : Int :=
  let damage := melee_damage atk dfn variance
  if crit then damage * 2 else damage

/-- Damage dealt by an enemy in `_enemy_turn`: the same melee formula,
with no crit multiplier. -/
def enemy_attack_damage (atk dfn variance : Int) : Int :=
  melee_damage atk dfn variance

/-! ## DungeonGenerator: room carving (`generate`) -/

/-- The tile grid `DungeonGenerator.tiles`, as a total map from (x, y).
Every access in the source is bounds-checked before indexing. -/
def Grid := Nat × Nat → TileType

/-- Point update of the grid (a single `self.tiles[x][y] = t`). -/
def setTile (g : Grid) (p : Nat × Nat) (t : TileType) : Grid :=
  fun q => if q = p then t else g q

/-- `_create_room`: carve the inner rectangle to floor. The source loops
`for x in range(x1, x2): for y in range(y1, y2)` with an in-bounds check
and writes the constant `FLOOR`; the writes are independent, so the loop
is embedded pointwise. -/
def create_room (g : Grid) (r : Room) (w h : Nat) : Grid :=
  fun q =>
    if r.x + 1 ≤ q.1 ∧ q.1 < r.x + r.width - 1 ∧
        r.y + 1 ≤ q.2 ∧ q.2 < r.y + r.height - 1 ∧
        q.1 < w ∧ q.2 < h then
      TileType.floor
    else g q

/-- `_create_h_tunnel`: carve `min x1 x2 ≤ x ≤ max x1 x2` at row `y`. -/
def create_h_tunnel (g : Grid) (x1 x2 y : Nat) (w h : Nat) : Grid :=
  fun q =>
    if min x1 x2 ≤ q.1 ∧ q.1 ≤ max x1 x2 ∧ q.2 = y ∧ q.1 < w ∧ q.2 < h then
      TileType.floor
    else g q

/-- `_create_v_tunnel`: carve `min y1 y2 ≤ y ≤ max y1 y2` at column `x`. -/
def create_v_tunnel (g : Grid) (y1 y2 x : Nat) (w h : Nat) : Grid :=
  fun q =>
    if min y1 y2 ≤ q.2 ∧ q.2 ≤ max y1 y2 ∧ q.1 = x ∧ q.1 < w ∧ q.2 < h then
      TileType.floor
    else g q

/-- The carving done for one accepted candidate: its interior, then —
when a previous room exists — the L-shaped corridor from the previous
room's center to the new room's center, horizontal-then-vertical when
the corridor coin (`random.random() < 0.5`) is true, else
vertical-then-horizontal. -/
def genCarve (w h : Nat) (g : Grid) (rooms : List Room)
    (cand : Room × Bool) : Grid :=
  match rooms.getLast? with
  | none => create_room g cand.1 w h
  | some prev =>
    if cand.2 then
      create_v_tunnel
        (create_h_tunnel (create_room g cand.1 w h)
          prev.center.1 cand.1.center.1 prev.center.2 w h)
        prev.center.2 cand.1.center.2 cand.1.center.1 w h
    else
      create_h_tunnel
        (create_v_tunnel (create_room g cand.1 w h)
          prev.center.2 cand.1.center.2 prev.center.1 w h)
        prev.center.1 cand.1.center.1 cand.1.center.2 w h

/-- One iteration of the `for _ in range(MAX_ROOMS)` loop in `generate`:
the candidate room is accepted iff it intersects no previously accepted
room; on acceptance its interior and connecting corridor are carved and
it is appended to the room list. -/
def genStep (w h : Nat) (acc : Grid × List Room) (cand : Room × Bool) :
    Grid × List Room :=
  if acc.2.any (fun other => cand.1.intersects other) then
    acc
  else
    (genCarve w h acc.1 acc.2 cand, acc.2 ++ [cand.1])

/-- Result of `DungeonGenerator.generate`: the tile grid, the accepted
rooms in insertion order, and the returned spawn position. -/
structure GenResult where
  grid : Grid
  rooms : List Room
  spawn : Nat × Nat

/-- `DungeonGenerator.generate`. The candidate list stands for the
`MAX_ROOMS` random `(width, height, x, y)` draws paired with the corridor
coin; the grid starts all-wall. After all placement attempts the center
of the last accepted room becomes the stairs, and the center of the first
accepted room (or the grid center) is returned. -/
def generate (w h : Nat) (cands : List (Room × Bool)) : GenResult :=
  let acc := cands.foldl (genStep w h) (fun _ => TileType.wall, [])
  let g2 :=
    match acc.2.getLast? with
    | some last => setTile acc.1 last.center TileType.stairs
    | none => acc.1
  let spawn :=
    match acc.2.head? with
    | some first => first.center
    | none => (w / 2, h / 2)
  ⟨g2, acc.2, spawn⟩

/-- The in-bounds constraint that `generate`'s random candidate draws
satisfy by construction: `x = randint(1, width - w - 2)` and
`y = randint(1, height - h - 2)`. -/
def CandidateInBounds (w h : Nat) (r : Room) : Prop :=
  1 ≤ r.x ∧ r.x + r.width + 2 ≤ w ∧ 1 ≤ r.y ∧ r.y + r.height + 2 ≤ h

instance (w h : Nat) (r : Room) : Decidable (CandidateInBounds w h r) := by
  unfold CandidateInBounds
  infer_instance

/-! ## DungeonGenerator: field of view (`compute_fov`) -/

/-- Python `int()` float-to-int conversion: truncation toward zero. -/
def pyTrunc (q : ℚ) : Int :=
  if 0 ≤ q then ⌊q⌋ else ⌈q⌉

/-- The per-cell visibility/explored maps (`self.visible`,
`self.explored`), as total maps: the source only ever marks cells whose
indices passed the `0 <= ix < width` test. -/
def CellMap := Int × Int → Bool

/-- Mark one cell in a cell map. -/
def markCell (m : CellMap) (p : Int × Int) : CellMap :=
  fun q => if q = p then true else m q

/-- The inner `for _ in range(radius)` loop of `compute_fov` for one ray:
truncate the float position, stop outside the grid, otherwise mark the
cell visible and explored, stop on a wall, else advance by (dx, dy). -/
def castRay (g : Grid) (w h : Nat) (x y dx dy : ℚ) :
    Nat → CellMap → CellMap → CellMap × CellMap
  | 0, vis, expl => (vis, expl)
  | steps + 1, vis, expl =>
    if 0 ≤ pyTrunc x ∧ pyTrunc x < w ∧ 0 ≤ pyTrunc y ∧ pyTrunc y < h then
      if g ((pyTrunc x).toNat, (pyTrunc y).toNat) = TileType.wall then
        (markCell vis (pyTrunc x, pyTrunc y),
          markCell expl (pyTrunc x, pyTrunc y))
      else
        castRay g w h (x + dx) (y + dy) dx dy steps
          (markCell vis (pyTrunc x, pyTrunc y))
          (markCell expl (pyTrunc x, pyTrunc y))
    else
      (vis, expl)

/-- `compute_fov(player_x, player_y, radius)`: reset `visible` to
all-false, then cast one ray per entry of the direction table `dirs`
(the source's 360 `(cos θ, sin θ)` pairs), each starting at the player
position. Returns the new `(visible, explored)` pair; the incoming
`explored` map is threaded through (it persists across calls). -/
def compute_fov (g : Grid) (w h : Nat) (expl : CellMap) (px py : Int)
    (radius : Nat) (dirs : List (ℚ × ℚ)) : CellMap × CellMap :=
  dirs.foldl
    (fun ve d => castRay g w h (px : ℚ) (py : ℚ) d.1 d.2 radius ve.1 ve.2)
    (fun _ => false, expl)

/-! ## Encounter/turn engine state -/

/-- Coarse game state (`GameState` enum; menu/tutorial screens are
presentation-only and collapse into `playing` transitions). -/
inductive GState where
  | playing
  | inventoryScreen
  | gameOver
  | victory
deriving DecidableEq, Repr

/-- The simulation-relevant slice of the `DungeonRogue` window object:
dungeon grid and its dimensions, FOV maps, accepted rooms, entities,
floor items, dungeon level, message log, and the coarse state. -/
structure Game where
  width : Nat
  height : Nat
  grid : Grid
  visible : CellMap
  explored : CellMap
  rooms : List Room
  player : Player
  enemies : List Enemy
  items : List Item
  dungeon_level : Nat
  log : List Msg
  gstate : GState

/-- `MessageLog.add` with `max_messages = 6`: append, evict the oldest
when over capacity. -/
def addMsg (log : List Msg) (m : Msg) : List Msg :=
  let l := log ++ [m]
  if 6 < l.length then l.tail else l

/-- `DungeonGenerator.is_walkable`: in bounds and the tile is floor,
stairs or door. -/
def is_walkable (γ : Game) (x y : Int) : Bool :=
  if 0 ≤ x ∧ x < γ.width ∧ 0 ≤ y ∧ y < γ.height then
    let t := γ.grid (x.toNat, y.toNat)
    decide (t = TileType.floor ∨ t = TileType.stairs ∨ t = TileType.door)
  else false

/-- `DungeonRogue._is_occupied`: the player or some living enemy stands
on the tile. -/
def is_occupied (γ : Game) (x y : Int) : Bool :=
  (γ.player.x == x && γ.player.y == y) ||
    γ.enemies.any (fun e => e.x == x && e.y == y && e.is_alive)

/-- `DungeonRogue.attack_enemy` against the enemy at list index `i`,
with the three random draws passed explicitly: the damage variance
`randint(-2, 2)`, the 15% crit roll, and on a kill the 40% gold roll
with its `randint(5, 20)` base (multiplied by the dungeon level), plus
the level-up gain draws consumed by `gain_exp`. -/
def attack_enemy (γ : Game) (i : Nat) (variance : Int) (crit : Bool)
    (goldRoll : Bool) (goldBase : Nat) (gs : List Gains) : Game :=
  match γ.enemies[i]? with
  | none => γ
  | some e =>
    let damage :=
      player_attack_damage (γ.player.get_total_attack : Int)
        (e.defense : Int) variance crit
    let log1 := addMsg γ.log (if crit then Msg.critHit else Msg.hit)
    let e1 : Enemy := { e with hp := e.hp - damage }
    let γ1 := { γ with enemies := γ.enemies.set i e1, log := log1 }
    if e1.is_alive then γ1
    else
      let γ2 := { γ1 with log := addMsg γ1.log Msg.defeated }
      let res := γ2.player.gain_exp e.exp_value gs
      let γ3 :=
        { γ2 with
          player := res.1
          log := if res.2.1 then addMsg γ2.log Msg.levelUpMsg else γ2.log }
      if goldRoll then
        { γ3 with
          player :=
            { γ3.player with
              gold := γ3.player.gold + goldBase * γ3.dungeon_level }
          log := addMsg γ3.log Msg.goldGain }
      else γ3

/-- Random draws one enemy consumes during its `_enemy_turn` slice: the
30% wander roll, the `random.choice` over the four cardinal steps, and
the attack variance `randint(-2, 2)`. -/
structure ETurnRng where
  wander : Bool
  wdir : Fin 4
  variance : Int

/-- The `random.choice([(0, 1), (0, -1), (1, 0), (-1, 0)])` table. -/
def wanderDir : Fin 4 → Int × Int
  | 0 => (0, 1)
  | 1 => (0, -1)
  | 2 => (1, 0)
  | 3 => (-1, 0)

/-- The step an enemy draws in `_enemy_turn`: one axis step per sign of
the coordinate delta toward the player, replaced by the random cardinal
direction when the 30% wander roll succeeds. -/
def chase_step (γ : Game) (e : Enemy) (r : ETurnRng) : Int × Int :=
  let dx : Int := if e.x < γ.player.x then 1
    else if γ.player.x < e.x then -1 else 0
  let dy : Int := if e.y < γ.player.y then 1
    else if γ.player.y < e.y then -1 else 0
  if r.wander then wanderDir r.wdir else (dx, dy)

/-- The body of the `for enemy in self.enemies` loop of `_enemy_turn`
for the enemy at index `i`: skip dead or currently-invisible enemies;
otherwise step toward the player (or wander), attack if the step lands
on the player (transitioning to game over on a kill), else move when the
target tile is walkable and unoccupied. -/
def enemy_turn_step (γ : Game) (i : Nat) (r : ETurnRng) : Game :=
  match γ.enemies[i]? with
  | none => γ
  | some e =>
    if !e.is_alive then γ
    else if !γ.visible (e.x, e.y) then γ
    else
      let d := chase_step γ e r
      let new_x := e.x + d.1
      let new_y := e.y + d.2
      if new_x = γ.player.x ∧ new_y = γ.player.y then
        let damage :=
          enemy_attack_damage (e.attack : Int)
            (γ.player.get_total_defense : Int) r.variance
        let p1 := { γ.player with hp := γ.player.hp - damage }
        let γ1 := { γ with player := p1, log := addMsg γ.log Msg.enemyHit }
        if !p1.is_alive then
          { γ1 with gstate := GState.gameOver, log := addMsg γ1.log Msg.died }
        else γ1
      else if is_walkable γ new_x new_y && !is_occupied γ new_x new_y then
        { γ with enemies := γ.enemies.set i { e with x := new_x, y := new_y } }
      else γ

/-- `DungeonRogue._enemy_turn`: run the per-enemy body over the enemy
list in order (`rng i` supplies the draws of the i-th enemy; the list's
length never changes during the turn, so iterating the initial index
range matches the source's in-place iteration). -/
def enemy_turn (γ : Game) (rng : Nat → ETurnRng) : Game :=
  (List.range γ.enemies.length).foldl
    (fun g i => enemy_turn_step g i (rng i)) γ

/-- `DungeonRogue._pickup_items`: scan the floor items in order; gold at
the player's tile is banked and discarded, other items at the tile join
the inventory when it holds fewer than 20, else they stay on the floor
with an "inventory full" message. (The source collects removals in
`items_to_remove` and deletes them afterwards; since the scan never
reads `self.items`, filtering during the fold is the same function.) -/
def pickup_items (γ : Game) : Game :=
  let r := γ.items.foldl
    (fun (acc : Player × List Item × List Msg) it =>
      let p := acc.1
      if it.x = p.x ∧ it.y = p.y then
        if it.item_type = ItemType.gold then
          ({ p with gold := p.gold + it.value }, acc.2.1,
            addMsg acc.2.2 Msg.goldGain)
        else if p.inventory.length < 20 then
          ({ p with inventory := p.inventory ++ [it] }, acc.2.1,
            addMsg acc.2.2 Msg.pickedUp)
        else
          (p, acc.2.1 ++ [it], addMsg acc.2.2 Msg.inventoryFull)
      else
        (p, acc.2.1 ++ [it], acc.2.2))
    (γ.player, [], γ.log)
  { γ with player := r.1, items := r.2.1, log := r.2.2 }

/-- One iteration of the scroll-of-fireball loop in `use_item`, for the
enemy at index `i` of the current list: a living, visible enemy takes
`damage`; a kill immediately feeds `gain_exp` (which can level up
mid-loop), threading the remaining gain draws. -/
def scroll_fireball_step (vis : CellMap) (damage : Nat)
    (acc : Player × List Enemy × Nat × List Gains) (i : Nat) :
    Player × List Enemy × Nat × List Gains :=
  match acc.2.1[i]? with
  | none => acc
  | some e =>
    if e.is_alive && vis (e.x, e.y) then
      if !(Enemy.is_alive { e with hp := e.hp - damage }) then
        ((acc.1.gain_exp e.exp_value acc.2.2.2).1,
          acc.2.1.set i { e with hp := e.hp - damage },
          acc.2.2.1 + 1,
          (acc.1.gain_exp e.exp_value acc.2.2.2).2.2)
      else
        (acc.1, acc.2.1.set i { e with hp := e.hp - damage },
          acc.2.2.1 + 1, acc.2.2.2)
    else acc

/-- The whole scroll-of-fireball loop: every enemy slot is visited once
in order. Returns the player, the updated enemy list, and the hit count. -/
def scroll_fireball_hits (p0 : Player) (es0 : List Enemy)
    (vis : CellMap) (damage : Nat) (gs0 : List Gains) :
    Player × List Enemy × Nat :=
  let r := (List.range es0.length).foldl
    (scroll_fireball_step vis damage) (p0, es0, 0, gs0)
  (r.1, r.2.1, r.2.2.1)

/-- The `item.item_type` dispatch of `DungeonRogue.use_item`, applied to
the entry `item` read at the (already validated) index and the inventory
`popped` with that entry removed. `roomChoice` stands for the
`random.choice(self.rooms)` draw of the teleport scroll, `dirs` for the
FOV direction table used by the recomputation it triggers, `gs` for the
gain draws of fireball-scroll kills. -/
def use_item_entry (γ : Game) (item : Item) (popped : List Item)
    (roomChoice : Nat) (dirs : List (ℚ × ℚ)) (gs : List Gains) :
    Option Game :=
  match item.item_type with
  | ItemType.health_potion =>
    let heal : Nat := item.value + γ.player.level * 5
    some { γ with
      player := { γ.player with
        hp := min (γ.player.hp + heal) γ.player.max_hp
        inventory := popped }
      log := addMsg γ.log Msg.healed }
  | ItemType.mana_potion =>
    let restore : Nat := item.value + γ.player.level * 3
    some { γ with
      player := { γ.player with
        mana := min (γ.player.mana + restore) γ.player.max_mana
        inventory := popped }
      log := addMsg γ.log Msg.manaRestored }
  | ItemType.scroll_fireball =>
    let damage : Nat := item.value + γ.player.magic
    let r := scroll_fireball_hits γ.player γ.enemies γ.visible damage gs
    some { γ with
      player := { r.1 with inventory := popped }
      enemies := r.2.1
      log := addMsg γ.log Msg.fireballScroll }
  | ItemType.scroll_teleport =>
    match γ.rooms with
    | [] => some γ
    | r0 :: rest =>
      let room := (r0 :: rest).get
        ⟨roomChoice % (r0 :: rest).length, Nat.mod_lt _ (by simp)⟩
      let cx : Int := room.center.1
      let cy : Int := room.center.2
      let fov := compute_fov γ.grid γ.width γ.height γ.explored
        cx cy 8 dirs
      some { γ with
        player := { γ.player with x := cx, y := cy, inventory := popped }
        visible := fov.1
        explored := fov.2
        log := addMsg γ.log Msg.teleported }
  | ItemType.sword =>
    let old := γ.player.weapon
    let p1 := { γ.player with weapon := some item, inventory := popped }
    some { γ with
      player := match old with
        | some o => { p1 with inventory := p1.inventory ++ [o] }
        | none => p1
      log := addMsg γ.log Msg.equipped }
  | ItemType.shield =>
    let old := γ.player.shield
    let p1 := { γ.player with shield := some item, inventory := popped }
    some { γ with
      player := match old with
        | some o => { p1 with inventory := p1.inventory ++ [o] }
        | none => p1
      log := addMsg γ.log Msg.equipped }
  | ItemType.armor =>
    let old := γ.player.armor
    let p1 := { γ.player with armor := some item, inventory := popped }
    some { γ with
      player := match old with
        | some o => { p1 with inventory := p1.inventory ++ [o] }
        | none => p1
      log := addMsg γ.log Msg.equipped }
  | ItemType.ring =>
    let old := γ.player.ring
    let p1 := { γ.player with ring := some item, inventory := popped }
    some { γ with
      player := match old with
        | some o => { p1 with inventory := p1.inventory ++ [o] }
        | none => p1
      log := addMsg γ.log Msg.equipped }
  | ItemType.gold => some γ

/-- `DungeonRogue.use_item(index)`.

Python semantics of the source are kept exactly: the only guard is
`index >= len(inventory)` (an early `return`); otherwise the entry is
read with Python list indexing, so a negative `index` counts from the
end, and an index below `-len(inventory)` raises `IndexError` — embedded
as `none`. -/
def use_item (γ : Game) (index : Int) (roomChoice : Nat)
    (dirs : List (ℚ × ℚ)) (gs : List Gains) : Option Game :=
  let inv := γ.player.inventory
  let n : Int := inv.length
  if n ≤ index then some γ
  else
    let j : Int := if index < 0 then index + n else index
    if 0 ≤ j ∧ j < n then
      match inv[j.toNat]? with
      | some item =>
        use_item_entry γ item (inv.eraseIdx j.toNat) roomChoice dirs gs
      | none => none
    else none

/-- Spell selector for `cast_spell`. -/
inductive SpellKind where
  | heal
  | fireball
deriving DecidableEq, Repr

/-- The nearest-visible-enemy scan of the fireball spell: iterate the
enemy list, keeping the first enemy whose Manhattan distance is strictly
below the minimum seen so far (`min_dist` starts at infinity, so the
first living visible enemy always loads). Returns its index. -/
def closest_enemy_idx (γ : Game) : Option Nat :=
  (List.range γ.enemies.length).foldl
    (fun (best : Option (Nat × Int)) i =>
      match γ.enemies[i]? with
      | none => best
      | some e =>
        if e.is_alive && γ.visible (e.x, e.y) then
          let dist := |e.x - γ.player.x| + |e.y - γ.player.y|
          match best with
          | none => some (i, dist)
          | some b => if dist < b.2 then some (i, dist) else best
        else best)
    none |>.map Prod.fst

/-- `DungeonRogue.cast_spell`. Heal costs 20 mana and restores
`15 + magic*2` HP clamped to the max; fireball costs 30 mana and deals
`20 + magic*2` to the nearest living visible enemy (experience for a
kill, `gs` supplying the gain draws); with insufficient mana only an
"insufficient mana" message is logged, and with no target only a
"no targets" message (the cost is charged only when a target is hit). -/
def cast_spell (γ : Game) (kind : SpellKind) (gs : List Gains) : Game :=
  match kind with
  | SpellKind.heal =>
    if 20 ≤ γ.player.mana then
      let heal : Nat := 15 + γ.player.magic * 2
      { γ with
        player := { γ.player with
          hp := min (γ.player.hp + heal) γ.player.max_hp
          mana := γ.player.mana - 20 }
        log := addMsg γ.log Msg.healSpell }
    else { γ with log := addMsg γ.log Msg.insufficientMana }
  | SpellKind.fireball =>
    if 30 ≤ γ.player.mana then
      let damage : Nat := 20 + γ.player.magic * 2
      match closest_enemy_idx γ with
      | some i =>
        match γ.enemies[i]? with
        | none => γ
        | some e =>
          let e1 : Enemy := { e with hp := e.hp - damage }
          let γ1 := { γ with
            enemies := γ.enemies.set i e1
            player := { γ.player with mana := γ.player.mana - 30 }
            log := addMsg γ.log Msg.fireballSpell }
          if !e1.is_alive then
            let res := γ1.player.gain_exp e.exp_value gs
            { γ1 with player := res.1, log := addMsg γ1.log Msg.defeated }
          else γ1
      | none => { γ with log := addMsg γ.log Msg.noTargets }
    else { γ with log := addMsg γ.log Msg.insufficientMana }

/-- One candidate placement inside the regular-enemy loop of
`_spawn_enemies` (a random in-room position plus the scaled random
template): the enemy is appended only when the tile is walkable and
unoccupied — the source's `if self.dungeon.is_walkable(x, y) and
not self._is_occupied(x, y)` test. -/
def spawn_enemy_step (γ : Game) (e : Enemy) : Game :=
  if is_walkable γ e.x e.y && !is_occupied γ e.x e.y then
    { γ with enemies := γ.enemies ++ [e] }
  else γ

/-- The regular-enemy placement attempts of `_spawn_enemies`, flattened
to the list of candidate enemies the room/count loops draw. -/
def spawn_enemies_regular (γ : Game) (cands : List Enemy) : Game :=
  cands.foldl spawn_enemy_step γ

/-- The boss block at the end of `_spawn_enemies`: on every 5th level
(with at least one room) a boss is appended at the center of the
second-to-last room (or the only room) — with no occupancy check. -/
def spawn_boss (γ : Game) : Game :=
  if γ.dungeon_level % 5 = 0 ∧ γ.rooms ≠ [] then
    let boss_room :=
      if 1 < γ.rooms.length then
        γ.rooms.getD (γ.rooms.length - 2) ⟨0, 0, 0, 0⟩
      else γ.rooms.getD (γ.rooms.length - 1) ⟨0, 0, 0, 0⟩
    let boss : Enemy :=
      { x := boss_room.center.1
        y := boss_room.center.2
        hp := 150 + γ.dungeon_level * 30
        max_hp := 150 + γ.dungeon_level * 30
        attack := 20 + γ.dungeon_level * 3
        defense := 10 + γ.dungeon_level * 2
        exp_value := 200 + γ.dungeon_level * 50
        is_boss := true }
    { γ with enemies := γ.enemies ++ [boss] }
  else γ

/-! ## C1: melee damage formula -/

/-- **C1.** Melee damage is `max(1, attacker effective attack − defender
defense + variance)`, hence always ≥ 1; a crit doubles the player's
damage after the clamp, and enemy-to-player damage is the same formula
with no crit multiplier. The last two conjuncts tie the formulas to the
state operations: `attack_enemy` subtracts exactly
`player_attack_damage` from the target's HP, and `enemy_turn_step`
either leaves the player's HP alone or subtracts exactly
`enemy_attack_damage` of some enemy. -/
theorem claim_c1 :
    ∀ (atk dfn variance : Int) (crit : Bool),
      (1 ≤ player_attack_damage atk dfn variance crit) ∧
      player_attack_damage atk dfn variance false =
        max 1 (atk - dfn + variance) ∧
      player_attack_damage atk dfn variance true =
        max 1 (atk - dfn + variance) * 2 ∧
      (1 ≤ enemy_attack_damage atk dfn variance) ∧
      enemy_attack_damage atk dfn variance = max 1 (atk - dfn + variance) ∧
      (∀ (γ : Game) (i : Nat) (goldRoll : Bool) (goldBase : Nat)
          (gs : List Gains),
        ((attack_enemy γ i variance crit goldRoll goldBase gs).enemies[i]?).map
            Enemy.hp =
          (γ.enemies[i]?).map (fun e =>
            e.hp - player_attack_damage (γ.player.get_total_attack : Int)
              (e.defense : Int) variance crit)) ∧
      (∀ (γ : Game) (i : Nat) (r : ETurnRng),
        (enemy_turn_step γ i r).player.hp = γ.player.hp ∨
        ∃ e ∈ γ.enemies, (enemy_turn_step γ i r).player.hp =
          γ.player.hp - enemy_attack_damage (e.attack : Int)
            (γ.player.get_total_defense : Int) r.variance) := by
  intro atk dfn variance crit
  have hmelee : 1 ≤ melee_damage atk dfn variance := le_max_left _ _
  refine ⟨?_, ?_, ?_, hmelee, rfl, ?_, ?_⟩
  · unfold player_attack_damage
    cases crit with
    | false => exact hmelee
    | true => simp only [if_pos]; omega
  · simp [player_attack_damage, melee_damage]
  · simp [player_attack_damage, melee_damage]
  · intro γ i goldRoll goldBase gs
    unfold attack_enemy
    cases hi : γ.enemies[i]? with
    | none =>
      have hlen : γ.enemies.length ≤ i := by
        by_contra hc
        rw [List.getElem?_eq_getElem (by omega)] at hi
        exact Option.noConfusion hi
      simp [hi, List.getElem?_eq_none hlen]
    | some e =>
      have hlen : i < γ.enemies.length := by
        by_contra hc
        rw [List.getElem?_eq_none (by omega)] at hi
        exact Option.noConfusion hi
      have hset : ∀ hp' : Int,
          (γ.enemies.set i { e with hp := hp' })[i]? =
            some { e with hp := hp' } :=
        fun hp' => List.getElem?_set_self hlen
      simp only [hi]
      split <;> split <;> simp [hset]
  · intro γ i r
    unfold enemy_turn_step
    cases hi : γ.enemies[i]? with
    | none => left; rfl
    | some e =>
      have hmem : e ∈ γ.enemies := List.getElem?_mem hi
      simp only [hi]
      split
      · left; rfl
      · split
        · left; rfl
        · split
          · split
            · right; exact ⟨e, hmem, rfl⟩
            · right; exact ⟨e, hmem, rfl⟩
          · split
            · left; rfl
            · left; rfl

/-! ## C2: experience accrual and leveling -/

/-- The level-up loop never decreases the level. -/
theorem gain_exp_loop_level_le (p : Player) (gs : List Gains) (b : Bool) :
    p.level ≤ (gain_exp_loop p gs b).1.level := by
  induction p, gs, b using gain_exp_loop.induct with
  | case1 p gs b h ih =>
    rw [gain_exp_loop, dif_pos h]
    exact le_trans (Nat.le_succ _) ih
  | case2 p gs b h =>
    rw [gain_exp_loop, dif_neg h]

/-- The returned flag is true iff it was already true or the level
strictly increased. -/
theorem gain_exp_loop_flag (p : Player) (gs : List Gains) (b : Bool) :
    (gain_exp_loop p gs b).2.1 = true ↔
      b = true ∨ p.level < (gain_exp_loop p gs b).1.level := by
  induction p, gs, b using gain_exp_loop.induct with
  | case1 p gs b h ih =>
    rw [gain_exp_loop, dif_pos h]
    have hle := gain_exp_loop_level_le
      (Player.level_up { p with exp := p.exp - p.exp_to_next }
        (gs.headD defaultGains)) gs.tail true
    have hl1 : (Player.level_up { p with exp := p.exp - p.exp_to_next }
        (gs.headD defaultGains)).level = p.level + 1 := rfl
    have hflag : (gain_exp_loop
        (Player.level_up { p with exp := p.exp - p.exp_to_next }
          (gs.headD defaultGains)) gs.tail true).2.1 = true :=
      ih.mpr (Or.inl rfl)
    constructor
    · intro _
      right
      omega
    · intro _
      exact hflag
  | case2 p gs b h =>
    rw [gain_exp_loop, dif_neg h]
    simp

/-- One iteration of the level-up loop (guard holds). -/
theorem gain_exp_loop_step (p : Player) (gs : List Gains) (b : Bool)
    (h : p.exp_to_next ≤ p.exp ∧ 0 < p.exp_to_next) :
    gain_exp_loop p gs b =
      gain_exp_loop
        (Player.level_up { p with exp := p.exp - p.exp_to_next }
          (gs.headD defaultGains)) gs.tail true := by
  rw [gain_exp_loop, dif_pos h]

/-- Exit of the level-up loop (guard fails). -/
theorem gain_exp_loop_done (p : Player) (gs : List Gains) (b : Bool)
    (h : ¬(p.exp_to_next ≤ p.exp ∧ 0 < p.exp_to_next)) :
    gain_exp_loop p gs b = (p, b, gs) := by
  rw [gain_exp_loop, dif_neg h]

/-- **C2.** `gain_exp(amount)` adds `amount` and then levels up while the
accumulated experience reaches the threshold (threshold ×1.5 integer
truncated each time), supporting multiple level-ups from one reward.
It returns `true` iff at least one level-up occurred; granting exactly
the current threshold from zero accumulated experience yields exactly one
level-up with leftover 0, and granting `threshold + ⌊1.5·threshold⌋`
yields exactly two with leftover 0. -/
theorem claim_c2 (p : Player) (amount : Nat) (gs : List Gains)
    (ht : 1 ≤ p.exp_to_next) :
    ((p.gain_exp amount gs).2.1 = true ↔
      p.level < (p.gain_exp amount gs).1.level) ∧
    (p.exp = 0 → amount = p.exp_to_next →
      (p.gain_exp amount gs).1.exp = 0 ∧
      (p.gain_exp amount gs).1.level = p.level + 1 ∧
      (p.gain_exp amount gs).1.exp_to_next = p.exp_to_next * 3 / 2 ∧
      (p.gain_exp amount gs).2.1 = true) ∧
    (p.exp = 0 → amount = p.exp_to_next + p.exp_to_next * 3 / 2 →
      (p.gain_exp amount gs).1.exp = 0 ∧
      (p.gain_exp amount gs).1.level = p.level + 2 ∧
      (p.gain_exp amount gs).2.1 = true) := by
  refine ⟨?_, ?_, ?_⟩
  · have hf := gain_exp_loop_flag { p with exp := p.exp + amount } gs false
    have : ({ p with exp := p.exp + amount } : Player).level = p.level := rfl
    rw [this] at hf
    simpa [Player.gain_exp] using hf
  · intro he ha
    have h1 : p.gain_exp amount gs =
        gain_exp_loop { p with exp := p.exp + amount } gs false := rfl
    rw [h1, gain_exp_loop_step _ _ _
      (show p.exp_to_next ≤ p.exp + amount ∧ 0 < p.exp_to_next by omega)]
    rw [gain_exp_loop_done _ _ _
      (show ¬(p.exp_to_next * 3 / 2 ≤ p.exp + amount - p.exp_to_next ∧
        0 < p.exp_to_next * 3 / 2) by omega)]
    refine ⟨show p.exp + amount - p.exp_to_next = 0 by omega, rfl, rfl, rfl⟩
  · intro he ha
    have h1 : p.gain_exp amount gs =
        gain_exp_loop { p with exp := p.exp + amount } gs false := rfl
    rw [h1, gain_exp_loop_step _ _ _
      (show p.exp_to_next ≤ p.exp + amount ∧ 0 < p.exp_to_next by omega)]
    rw [gain_exp_loop_step _ _ _
      (show p.exp_to_next * 3 / 2 ≤ p.exp + amount - p.exp_to_next ∧
        0 < p.exp_to_next * 3 / 2 by omega)]
    rw [gain_exp_loop_done _ _ _
      (show ¬(p.exp_to_next * 3 / 2 * 3 / 2 ≤
          p.exp + amount - p.exp_to_next - p.exp_to_next * 3 / 2 ∧
        0 < p.exp_to_next * 3 / 2 * 3 / 2) by omega)]
    refine ⟨show p.exp + amount - p.exp_to_next - p.exp_to_next * 3 / 2 = 0
      by omega, rfl, rfl⟩

/-- Witness for C2 at a concrete player: Warrior-like stats, threshold
100, granting exactly 100 experience. -/
theorem claim_c2_witness :
    (1 ≤ (100 : Nat)) ∧
    (let p : Player :=
      { x := 0, y := 0, hp := 120, max_hp := 120, mana := 30, max_mana := 30
        attack := 15, defense := 3, magic := 8, level := 1, exp := 0
        exp_to_next := 100, gold := 0, inventory := [], weapon := none
        armor := none, shield := none, ring := none }
     ((p.gain_exp 100 []).2.1 = true ↔
       p.level < (p.gain_exp 100 []).1.level) ∧
     (p.exp = 0 → 100 = p.exp_to_next →
       (p.gain_exp 100 []).1.exp = 0 ∧
       (p.gain_exp 100 []).1.level = p.level + 1 ∧
       (p.gain_exp 100 []).1.exp_to_next = p.exp_to_next * 3 / 2 ∧
       (p.gain_exp 100 []).2.1 = true) ∧
     (p.exp = 0 → 100 = p.exp_to_next + p.exp_to_next * 3 / 2 →
       (p.gain_exp 100 []).1.exp = 0 ∧
       (p.gain_exp 100 []).1.level = p.level + 2 ∧
       (p.gain_exp 100 []).2.1 = true)) :=
  ⟨by decide, claim_c2 _ 100 [] (by decide)⟩

/-! ## Concrete states used by witnesses and counterexamples -/

/-- A concrete all-floor grid. -/
def testGrid : Grid := fun _ => TileType.floor

/-- A concrete player for witness states. -/
def testPlayer : Player :=
  { x := 2, y := 2, hp := 100, max_hp := 120, mana := 10, max_mana := 30
    attack := 15, defense := 3, magic := 8, level := 1, exp := 0
    exp_to_next := 100, gold := 0, inventory := [], weapon := none
    armor := none, shield := none, ring := none }

/-- A concrete base game state for witnesses and counterexamples. -/
def baseGame : Game :=
  { width := 10, height := 10, grid := testGrid
    visible := fun _ => true, explored := fun _ => true
    rooms := [], player := testPlayer, enemies := [], items := []
    dungeon_level := 1, log := [], gstate := GState.playing }

/-! ## C9: insufficient mana aborts a spell with no effect -/

/-- **C9.** Casting heal with mana < 20, or fireball with mana < 30,
changes nothing except appending the "insufficient mana" log notice:
no mana is spent and no hit points or other state change. -/
theorem claim_c9 (γ : Game) (gs : List Gains) :
    (γ.player.mana < 20 →
      cast_spell γ SpellKind.heal gs =
        { γ with log := addMsg γ.log Msg.insufficientMana }) ∧
    (γ.player.mana < 30 →
      cast_spell γ SpellKind.fireball gs =
        { γ with log := addMsg γ.log Msg.insufficientMana }) := by
  constructor
  · intro hm
    simp only [cast_spell]
    rw [if_neg (by omega)]
  · intro hm
    simp only [cast_spell]
    rw [if_neg (by omega)]

/-- Witness for C9: the base game's player has 10 mana. -/
theorem claim_c9_witness :
    (baseGame.player.mana < 20 →
      cast_spell baseGame SpellKind.heal [] =
        { baseGame with log := addMsg baseGame.log Msg.insufficientMana }) ∧
    (baseGame.player.mana < 30 →
      cast_spell baseGame SpellKind.fireball [] =
        { baseGame with log := addMsg baseGame.log Msg.insufficientMana }) :=
  claim_c9 baseGame []

/-! ## C10: fireball with no visible target is a pure no-op plus log -/

/-- With no living visible enemy, the nearest-enemy scan finds nothing. -/
theorem closest_enemy_idx_none (γ : Game)
    (hn : ∀ e ∈ γ.enemies, ¬(e.is_alive = true ∧ γ.visible (e.x, e.y) = true)) :
    closest_enemy_idx γ = none := by
  unfold closest_enemy_idx
  suffices hfold : ∀ l : List Nat,
      l.foldl (fun (best : Option (Nat × Int)) i =>
        match γ.enemies[i]? with
        | none => best
        | some e =>
          if e.is_alive && γ.visible (e.x, e.y) then
            let dist := |e.x - γ.player.x| + |e.y - γ.player.y|
            match best with
            | none => some (i, dist)
            | some b => if dist < b.2 then some (i, dist) else best
          else best) none = none by
    rw [hfold]
    rfl
  intro l
  induction l with
  | nil => rfl
  | cons a l ih =>
    rw [List.foldl_cons]
    have hstep : (match γ.enemies[a]? with
        | none => (none : Option (Nat × Int))
        | some e =>
          if e.is_alive && γ.visible (e.x, e.y) then
            let dist := |e.x - γ.player.x| + |e.y - γ.player.y|
            match (none : Option (Nat × Int)) with
            | none => some (a, dist)
            | some b => if dist < b.2 then some (a, dist) else none
          else none) = none := by
      cases ha : γ.enemies[a]? with
      | none => rfl
      | some e =>
        have hmem : e ∈ γ.enemies := List.getElem?_mem ha
        have hcond : (e.is_alive && γ.visible (e.x, e.y)) = false := by
          have := hn e hmem
          cases h1 : e.is_alive <;> cases h2 : γ.visible (e.x, e.y) <;>
            simp_all
        simp [hcond]
    rw [hstep]
    exact ih

/-- **C10.** Fireball with sufficient mana (≥ 30) but no living visible
enemy spends no mana, deals no damage, and leaves the whole state
unchanged except for the "no targets" log entry. -/
theorem claim_c10 (γ : Game) (gs : List Gains)
    (hm : 30 ≤ γ.player.mana)
    (hn : ∀ e ∈ γ.enemies, ¬(e.is_alive = true ∧ γ.visible (e.x, e.y) = true)) :
    cast_spell γ SpellKind.fireball gs =
      { γ with log := addMsg γ.log Msg.noTargets } := by
  simp only [cast_spell]
  rw [if_pos hm, closest_enemy_idx_none γ hn]

/-- Witness for C10: 50 mana, one dead enemy and one invisible enemy. -/
theorem claim_c10_witness :
    (30 ≤ (50 : Int)) ∧
    (let γ : Game :=
      { baseGame with
        player := { testPlayer with mana := 50 }
        visible := fun q => decide (q = (7, 7))
        enemies :=
          [{ x := 5, y := 5, hp := 0, max_hp := 15, attack := 4, defense := 1
             exp_value := 10, is_boss := false },
           { x := 6, y := 6, hp := 25, max_hp := 25, attack := 6, defense := 2
             exp_value := 20, is_boss := false }] }
     cast_spell γ SpellKind.fireball [] =
       { γ with log := addMsg γ.log Msg.noTargets }) := by
  refine ⟨by decide, ?_⟩
  exact claim_c10 _ [] (by decide) (by decide)

/-! ## C8: `use_item` with an out-of-range index -/

/-- A concrete state whose inventory holds exactly one health potion. -/
def c8Game : Game :=
  { baseGame with
    player := { testPlayer with
      inventory := [{ x := 0, y := 0, item_type := ItemType.health_potion
                      value := 25, rarity := 1 }] } }

/-- A concrete state with an empty inventory. -/
def c8GameEmpty : Game := baseGame

/-- **C8 (code bug).** The source guards `use_item` only with
`index >= len(inventory)`, so a negative index is *not* a silent no-op:
with a one-item inventory, `use_item(-1)` reaches `inventory[-1]`
(Python indexing from the end) and consumes the entry — here the health
potion is drunk and the inventory drops from 1 to 0 — and with an empty
inventory `use_item(-1)` passes the guard and `inventory[-1]` raises
`IndexError` (embedded as `none`). Both reachable behaviors contradict
the claimed silent no-op for every index outside `[0, len)`. -/
theorem claim_c8_code_bug :
    c8Game.player.inventory.length = 1 ∧
    (use_item c8Game (-1) 0 [] []).map
      (fun g => (g.player.inventory.length, g.player.hp)) = some (0, 120) ∧
    (use_item c8GameEmpty (-1) 0 [] []).isNone = true := by
  refine ⟨rfl, ?_, ?_⟩ <;> decide

/-! ## C7: inventory capacity 20 and equip swaps -/

/-- The equipment slot of `use_item` keyed by item type (the
`self.player.equipped[...]` entry the sword/shield/armor/ring branches
read and write). -/
def equip_slot (p : Player) (t : ItemType) : Option Item :=
  match t with
  | ItemType.sword => p.weapon
  | ItemType.shield => p.shield
  | ItemType.armor => p.armor
  | ItemType.ring => p.ring
  | _ => none

/-- The pickup fold never pushes the inventory past 20 entries. -/
theorem pickup_fold_length_le (items : List Item)
    (acc : Player × List Item × List Msg)
    (hle : acc.1.inventory.length ≤ 20) :
    (items.foldl
      (fun (acc : Player × List Item × List Msg) it =>
        let p := acc.1
        if it.x = p.x ∧ it.y = p.y then
          if it.item_type = ItemType.gold then
            ({ p with gold := p.gold + it.value }, acc.2.1,
              addMsg acc.2.2 Msg.goldGain)
          else if p.inventory.length < 20 then
            ({ p with inventory := p.inventory ++ [it] }, acc.2.1,
              addMsg acc.2.2 Msg.pickedUp)
          else
            (p, acc.2.1 ++ [it], addMsg acc.2.2 Msg.inventoryFull)
        else
          (p, acc.2.1 ++ [it], acc.2.2))
      acc).1.inventory.length ≤ 20 := by
  induction items generalizing acc with
  | nil => exact hle
  | cons it rest ih =>
    rw [List.foldl_cons]
    apply ih
    dsimp only
    split
    · split
      · exact hle
      · split
        · simp only [List.length_append, List.length_cons, List.length_nil]
          omega
        · exact hle
    · exact hle

/-- `use_item` at a valid non-negative index reduces to the item-type
dispatch on the entry at that index. -/
theorem use_item_nat (γ : Game) (index : Nat) (rc : Nat)
    (dirs : List (ℚ × ℚ)) (gs : List Gains)
    (hlt : index < γ.player.inventory.length) :
    use_item γ (index : Int) rc dirs gs =
      use_item_entry γ (γ.player.inventory.get ⟨index, hlt⟩)
        (γ.player.inventory.eraseIdx index) rc dirs gs := by
  simp only [use_item]
  rw [if_neg (by exact_mod_cast Nat.not_le.mpr hlt)]
  rw [show (if ((index : Int) < 0) then
      (index : Int) + (γ.player.inventory.length : Nat) else (index : Int)) =
    (index : Int) from if_neg (by omega)]
  rw [if_pos (⟨by omega, by exact_mod_cast hlt⟩ :
    (0 : Int) ≤ index ∧ (index : Int) < (γ.player.inventory.length : Nat))]
  rw [show ((index : Int)).toNat = index from Int.toNat_natCast index]
  rw [List.getElem?_eq_getElem hlt]
  rfl

/-- **C7.** The inventory never exceeds 20 entries: picking up items
preserves the bound; with a full inventory (20) the single non-gold item
on the player's tile stays on the floor, the inventory stays at 20, and
the "inventory full" message is logged; using an equipment item at a
valid index installs it in its slot, shrinks the inventory by one and
returns any previously equipped item of that slot to the inventory
(net length `len - 1 + (slot occupied ? 1 : 0)`). -/
theorem claim_c7 (γ : Game) :
    (γ.player.inventory.length ≤ 20 →
      (pickup_items γ).player.inventory.length ≤ 20) ∧
    (∀ it : Item, γ.items = [it] → it.x = γ.player.x → it.y = γ.player.y →
      it.item_type ≠ ItemType.gold → γ.player.inventory.length = 20 →
      (pickup_items γ).player = γ.player ∧
      (pickup_items γ).items = [it] ∧
      (pickup_items γ).log = addMsg γ.log Msg.inventoryFull) ∧
    (∀ (index : Nat) (rc : Nat) (dirs : List (ℚ × ℚ)) (gs : List Gains)
      (hlt : index < γ.player.inventory.length),
      (γ.player.inventory.get ⟨index, hlt⟩).item_type = ItemType.sword ∨
      (γ.player.inventory.get ⟨index, hlt⟩).item_type = ItemType.shield ∨
      (γ.player.inventory.get ⟨index, hlt⟩).item_type = ItemType.armor ∨
      (γ.player.inventory.get ⟨index, hlt⟩).item_type = ItemType.ring →
      ∃ γ', use_item γ (index : Int) rc dirs gs = some γ' ∧
        equip_slot γ'.player
            (γ.player.inventory.get ⟨index, hlt⟩).item_type =
          some (γ.player.inventory.get ⟨index, hlt⟩) ∧
        γ'.player.inventory.length = γ.player.inventory.length - 1 +
          (equip_slot γ.player
            (γ.player.inventory.get ⟨index, hlt⟩).item_type).toList.length ∧
        (∀ o, equip_slot γ.player
            (γ.player.inventory.get ⟨index, hlt⟩).item_type = some o →
          o ∈ γ'.player.inventory)) := by
  refine ⟨?_, ?_, ?_⟩
  · intro hle
    exact pickup_fold_length_le γ.items (γ.player, [], γ.log) hle
  · intro it hitems hx hy hng hfull
    simp only [pickup_items, hitems, List.foldl_cons, List.foldl_nil]
    rw [if_pos ⟨hx, hy⟩, if_neg hng, if_neg (by omega)]
    exact ⟨rfl, rfl, rfl⟩
  · intro index rc dirs gs hlt hty
    rw [use_item_nat γ index rc dirs gs hlt]
    set item := γ.player.inventory.get ⟨index, hlt⟩ with hitem
    have herase : (γ.player.inventory.eraseIdx index).length =
        γ.player.inventory.length - 1 :=
      List.length_eraseIdx_of_lt hlt
    rcases hty with h | h | h | h
    · simp only [use_item_entry, h]
      cases hw : γ.player.weapon with
      | none =>
        refine ⟨_, rfl, rfl, ?_, ?_⟩
        · simp [equip_slot, hw, herase]
        · intro o ho
          simp [equip_slot, hw] at ho
      | some o =>
        refine ⟨_, rfl, rfl, ?_, ?_⟩
        · simp [equip_slot, hw, herase]
        · intro o' ho
          simp only [equip_slot, hw, Option.some.injEq] at ho
          subst ho
          simp
    · simp only [use_item_entry, h]
      cases hw : γ.player.shield with
      | none =>
        refine ⟨_, rfl, rfl, ?_, ?_⟩
        · simp [equip_slot, hw, herase]
        · intro o ho
          simp [equip_slot, hw] at ho
      | some o =>
        refine ⟨_, rfl, rfl, ?_, ?_⟩
        · simp [equip_slot, hw, herase]
        · intro o' ho
          simp only [equip_slot, hw, Option.some.injEq] at ho
          subst ho
          simp
    · simp only [use_item_entry, h]
      cases hw : γ.player.armor with
      | none =>
        refine ⟨_, rfl, rfl, ?_, ?_⟩
        · simp [equip_slot, hw, herase]
        · intro o ho
          simp [equip_slot, hw] at ho
      | some o =>
        refine ⟨_, rfl, rfl, ?_, ?_⟩
        · simp [equip_slot, hw, herase]
        · intro o' ho
          simp only [equip_slot, hw, Option.some.injEq] at ho
          subst ho
          simp
    · simp only [use_item_entry, h]
      cases hw : γ.player.ring with
      | none =>
        refine ⟨_, rfl, rfl, ?_, ?_⟩
        · simp [equip_slot, hw, herase]
        · intro o ho
          simp [equip_slot, hw] at ho
      | some o =>
        refine ⟨_, rfl, rfl, ?_, ?_⟩
        · simp [equip_slot, hw, herase]
        · intro o' ho
          simp only [equip_slot, hw, Option.some.injEq] at ho
          subst ho
          simp

/-- Concrete floor item (armor) lying on the witness player's tile. -/
def c7Item : Item :=
  { x := 2, y := 2, item_type := ItemType.armor, value := 4, rarity := 2 }

/-- Concrete sword sitting at inventory index 0 in the C7 witness. -/
def c7Sword : Item :=
  { x := 0, y := 0, item_type := ItemType.sword, value := 5, rarity := 2 }

/-- Concrete sword already equipped in the C7 witness. -/
def c7Old : Item :=
  { x := 1, y := 1, item_type := ItemType.sword, value := 3, rarity := 1 }

/-- C7 witness state: a full 20-item inventory with a sword at index 0,
a sword already equipped, and one non-gold item on the player's tile. -/
def c7Game : Game :=
  { baseGame with
    player := { testPlayer with
      inventory := c7Sword :: List.replicate 19 c7Item
      weapon := some c7Old }
    items := [c7Item] }

/-- Witness for C7: all three parts at the concrete full-inventory state. -/
theorem claim_c7_witness :
    (c7Game.player.inventory.length ≤ 20 ∧
      (pickup_items c7Game).player.inventory.length ≤ 20) ∧
    ((pickup_items c7Game).player = c7Game.player ∧
      (pickup_items c7Game).items = [c7Item] ∧
      (pickup_items c7Game).log = addMsg c7Game.log Msg.inventoryFull) ∧
    (∃ γ', use_item c7Game ((0 : Nat) : Int) 0 [] [] = some γ' ∧
      equip_slot γ'.player
          (c7Game.player.inventory.get ⟨0, by decide⟩).item_type =
        some (c7Game.player.inventory.get ⟨0, by decide⟩) ∧
      γ'.player.inventory.length = c7Game.player.inventory.length - 1 +
        (equip_slot c7Game.player
          (c7Game.player.inventory.get ⟨0, by decide⟩).item_type).toList.length ∧
      (∀ o, equip_slot c7Game.player
          (c7Game.player.inventory.get ⟨0, by decide⟩).item_type = some o →
        o ∈ γ'.player.inventory)) := by
  refine ⟨⟨by decide, (claim_c7 c7Game).1 (by decide)⟩, ?_, ?_⟩
  · exact (claim_c7 c7Game).2.1 c7Item rfl rfl rfl (by decide) (by decide)
  · exact (claim_c7 c7Game).2.2 0 0 [] [] (by decide) (Or.inl (by decide))

/-! ## C3: generate — spawn point and unique stairs -/

/-- Carving a room never writes a stairs tile. -/
theorem create_room_ne_stairs (g : Grid) (r : Room) (w h : Nat)
    (q : Nat × Nat) (hg : g q ≠ TileType.stairs) :
    create_room g r w h q ≠ TileType.stairs := by
  unfold create_room
  split
  · exact fun hc => TileType.noConfusion hc
  · exact hg

/-- Carving a horizontal tunnel never writes a stairs tile. -/
theorem create_h_tunnel_ne_stairs (g : Grid) (x1 x2 y w h : Nat)
    (q : Nat × Nat) (hg : g q ≠ TileType.stairs) :
    create_h_tunnel g x1 x2 y w h q ≠ TileType.stairs := by
  unfold create_h_tunnel
  split
  · exact fun hc => TileType.noConfusion hc
  · exact hg

/-- Carving a vertical tunnel never writes a stairs tile. -/
theorem create_v_tunnel_ne_stairs (g : Grid) (y1 y2 x w h : Nat)
    (q : Nat × Nat) (hg : g q ≠ TileType.stairs) :
    create_v_tunnel g y1 y2 x w h q ≠ TileType.stairs := by
  unfold create_v_tunnel
  split
  · exact fun hc => TileType.noConfusion hc
  · exact hg

/-- The accepted-candidate carving never writes a stairs tile. -/
theorem genCarve_ne_stairs (w h : Nat) (g : Grid) (rooms : List Room)
    (cand : Room × Bool) (q : Nat × Nat) (hg : g q ≠ TileType.stairs) :
    genCarve w h g rooms cand q ≠ TileType.stairs := by
  unfold genCarve
  cases rooms.getLast? with
  | none => exact create_room_ne_stairs _ _ _ _ _ hg
  | some prev =>
    dsimp only
    split
    · exact create_v_tunnel_ne_stairs _ _ _ _ _ _ _
        (create_h_tunnel_ne_stairs _ _ _ _ _ _ _
          (create_room_ne_stairs _ _ _ _ _ hg))
    · exact create_h_tunnel_ne_stairs _ _ _ _ _ _ _
        (create_v_tunnel_ne_stairs _ _ _ _ _ _ _
          (create_room_ne_stairs _ _ _ _ _ hg))

/-- One placement attempt never writes a stairs tile. -/
theorem genStep_ne_stairs (w h : Nat) (acc : Grid × List Room)
    (cand : Room × Bool) (hg : ∀ q, acc.1 q ≠ TileType.stairs) :
    ∀ q, (genStep w h acc cand).1 q ≠ TileType.stairs := by
  intro q
  unfold genStep
  split
  · exact hg q
  · exact genCarve_ne_stairs _ _ _ _ _ _ (hg q)

/-- The whole placement fold never writes a stairs tile. -/
theorem gen_fold_ne_stairs (w h : Nat) (cands : List (Room × Bool))
    (acc : Grid × List Room) (hg : ∀ q, acc.1 q ≠ TileType.stairs) :
    ∀ q, (cands.foldl (genStep w h) acc).1 q ≠ TileType.stairs := by
  induction cands generalizing acc with
  | nil => exact hg
  | cons c rest ih =>
    rw [List.foldl_cons]
    exact ih _ (genStep_ne_stairs w h acc c hg)

/-- One placement attempt either rejects the candidate or appends it. -/
theorem genStep_rooms_eq (w h : Nat) (acc : Grid × List Room)
    (cand : Room × Bool) :
    (genStep w h acc cand).2 = acc.2 ∨
      (genStep w h acc cand).2 = acc.2 ++ [cand.1] := by
  unfold genStep
  split
  · left; rfl
  · right; rfl

/-- Every accepted room is one of the candidates (or was already there). -/
theorem gen_fold_rooms_mem (w h : Nat) (cands : List (Room × Bool))
    (acc : Grid × List Room) :
    ∀ r ∈ (cands.foldl (genStep w h) acc).2,
      r ∈ acc.2 ∨ r ∈ cands.map Prod.fst := by
  induction cands generalizing acc with
  | nil =>
    intro r hr
    exact Or.inl hr
  | cons c rest ih =>
    intro r hr
    rw [List.foldl_cons] at hr
    rcases ih (genStep w h acc c) r hr with hin | hin
    · rcases genStep_rooms_eq w h acc c with he | he
      · rw [he] at hin
        exact Or.inl hin
      · rw [he] at hin
        rcases List.mem_append.mp hin with hin | hin
        · exact Or.inl hin
        · right
          simp only [List.mem_singleton] at hin
          subst hin
          exact List.mem_cons_self _ _
    · right
      exact List.mem_cons_of_mem _ hin

/-- **C3.** For every `generate` call (candidates drawn inside the
margin, as `randint` guarantees): if at least one room was accepted, the
returned spawn is the center of the first accepted room and exactly one
stairs tile exists, at the center of the last accepted room (in bounds);
if no room was accepted, the grid center is returned and no stairs tile
exists. -/
theorem claim_c3 (w h : Nat) (cands : List (Room × Bool))
    (hb : ∀ c ∈ cands, CandidateInBounds w h c.1) :
    (∀ r0, (generate w h cands).rooms.head? = some r0 →
      (generate w h cands).spawn = r0.center) ∧
    ((generate w h cands).rooms = [] →
      (generate w h cands).spawn = (w / 2, h / 2) ∧
      ∀ q, (generate w h cands).grid q ≠ TileType.stairs) ∧
    (∀ rl, (generate w h cands).rooms.getLast? = some rl →
      rl.center.1 < w ∧ rl.center.2 < h ∧
      ∀ q, ((generate w h cands).grid q = TileType.stairs ↔ q = rl.center)) := by
  have hpre : ∀ q, (cands.foldl (genStep w h)
      (fun _ => TileType.wall, ([] : List Room))).1 q ≠ TileType.stairs :=
    gen_fold_ne_stairs w h cands _ (fun _ hc => TileType.noConfusion hc)
  refine ⟨?_, ?_, ?_⟩
  · intro r0 h0
    simp only [generate] at h0 ⊢
    rw [h0]
  · intro hnil
    simp only [generate] at hnil ⊢
    rw [hnil]
    simp only [List.getLast?_nil, List.head?_nil]
    exact ⟨trivial, hpre⟩
  · intro rl hl
    simp only [generate] at hl ⊢
    rw [hl]
    have hlmem : rl ∈ (cands.foldl (genStep w h)
        (fun _ => TileType.wall, ([] : List Room))).2 := by
      obtain ⟨hne, heq⟩ := List.mem_getLast?_eq_getLast hl
      rw [heq]
      exact List.getLast_mem hne
    have hmem : rl ∈ cands.map Prod.fst := by
      rcases gen_fold_rooms_mem w h cands _ rl hlmem with hin | hin
      · simp at hin
      · exact hin
    obtain ⟨c, hc, hfst⟩ := List.mem_map.mp hmem
    have hcb := hb c hc
    rw [hfst] at hcb
    obtain ⟨hx1, hx2, hy1, hy2⟩ := hcb
    refine ⟨?_, ?_, ?_⟩
    · show rl.x + rl.width / 2 < w
      omega
    · show rl.y + rl.height / 2 < h
      omega
    · intro q
      simp only [setTile]
      constructor
      · intro hq
        by_contra hne
        rw [if_neg hne] at hq
        exact hpre q hq
      · intro hq
        rw [if_pos hq]

/-- Witness for C3 at two concrete non-overlapping candidate rooms in a
50×40 grid. -/
theorem claim_c3_witness :
    (∀ c ∈ [((⟨2, 2, 6, 6⟩ : Room), true), ((⟨20, 20, 6, 6⟩ : Room), false)],
      CandidateInBounds 50 40 c.1) ∧
    ((∀ r0, (generate 50 40
        [(⟨2, 2, 6, 6⟩, true), (⟨20, 20, 6, 6⟩, false)]).rooms.head? =
          some r0 →
      (generate 50 40
        [(⟨2, 2, 6, 6⟩, true), (⟨20, 20, 6, 6⟩, false)]).spawn = r0.center) ∧
    ((generate 50 40
        [(⟨2, 2, 6, 6⟩, true), (⟨20, 20, 6, 6⟩, false)]).rooms = [] →
      (generate 50 40
        [(⟨2, 2, 6, 6⟩, true), (⟨20, 20, 6, 6⟩, false)]).spawn = (25, 20) ∧
      ∀ q, (generate 50 40
        [(⟨2, 2, 6, 6⟩, true), (⟨20, 20, 6, 6⟩, false)]).grid q ≠
          TileType.stairs) ∧
    (∀ rl, (generate 50 40
        [(⟨2, 2, 6, 6⟩, true), (⟨20, 20, 6, 6⟩, false)]).rooms.getLast? =
          some rl →
      rl.center.1 < 50 ∧ rl.center.2 < 40 ∧
      ∀ q, ((generate 50 40
        [(⟨2, 2, 6, 6⟩, true), (⟨20, 20, 6, 6⟩, false)]).grid q =
          TileType.stairs ↔ q = rl.center))) :=
  ⟨by decide, claim_c3 50 40 _ (by decide)⟩

/-! ## C4: field-of-view containment and radius bound -/

/-- Python `int()` truncation keeps a float within the integer distance
bound it had from a non-negative integer anchor. -/
theorem pyTrunc_abs_le (p : Int) (hp : 0 ≤ p) (x : ℚ) (a : Nat)
    (hx : |x - (p : ℚ)| ≤ (a : ℚ)) : |pyTrunc x - p| ≤ (a : Int) := by
  rw [abs_le] at hx ⊢
  obtain ⟨hx1, hx2⟩ := hx
  unfold pyTrunc
  split
  case isTrue hpos =>
    constructor
    · have hc : ((p - a : Int) : ℚ) ≤ x := by push_cast; linarith
      have h2 := Int.le_floor.mpr hc
      omega
    · have hc : x ≤ ((p + a : Int) : ℚ) := by push_cast; linarith
      have h2 : ⌊x⌋ ≤ ⌊((p + a : Int) : ℚ)⌋ := Int.floor_le_floor hc
      rw [Int.floor_intCast] at h2
      omega
  case isFalse hneg =>
    push_neg at hneg
    constructor
    · have hc : ((p - a : Int) : ℚ) ≤ x := by push_cast; linarith
      have h2 : ⌈((p - a : Int) : ℚ)⌉ ≤ ⌈x⌉ := Int.ceil_le_ceil hc
      rw [Int.ceil_intCast] at h2
      omega
    · have h2 : ⌈x⌉ ≤ ⌈(0 : ℚ)⌉ := Int.ceil_le_ceil (le_of_lt hneg)
      simp only [Int.ceil_zero] at h2
      omega

/-- A ray never unmarks explored cells. -/
theorem castRay_expl_mono (g : Grid) (w h : Nat) (dx dy : ℚ) :
    ∀ (steps : Nat) (x y : ℚ) (vis expl : CellMap) (q : Int × Int),
      expl q = true →
      (castRay g w h x y dx dy steps vis expl).2 q = true := by
  intro steps
  induction steps with
  | zero =>
    intro x y vis expl q hq
    exact hq
  | succ n ih =>
    intro x y vis expl q hq
    have hmark : markCell expl (pyTrunc x, pyTrunc y) q = true := by
      unfold markCell
      split
      · rfl
      · exact hq
    simp only [castRay]
    by_cases h1 : 0 ≤ pyTrunc x ∧ pyTrunc x < w ∧ 0 ≤ pyTrunc y ∧ pyTrunc y < h
    · rw [if_pos h1]
      by_cases h2 : g ((pyTrunc x).toNat, (pyTrunc y).toNat) = TileType.wall
      · rw [if_pos h2]
        exact hmark
      · rw [if_neg h2]
        exact ih _ _ _ _ q hmark
    · rw [if_neg h1]
      exact hq

/-- Along a ray, every cell marked visible is also marked explored
(given the invariant held on entry). -/
theorem castRay_vis_sub_expl (g : Grid) (w h : Nat) (dx dy : ℚ) :
    ∀ (steps : Nat) (x y : ℚ) (vis expl : CellMap),
      (∀ q, vis q = true → expl q = true) →
      ∀ q, (castRay g w h x y dx dy steps vis expl).1 q = true →
        (castRay g w h x y dx dy steps vis expl).2 q = true := by
  intro steps
  induction steps with
  | zero =>
    intro x y vis expl hsub q hq
    exact hsub q hq
  | succ n ih =>
    intro x y vis expl hsub q
    have hsub1 : ∀ q, markCell vis (pyTrunc x, pyTrunc y) q = true →
        markCell expl (pyTrunc x, pyTrunc y) q = true := by
      intro q hq
      unfold markCell at hq ⊢
      split
      · rfl
      · rw [if_neg (by assumption)] at hq
        exact hsub q hq
    simp only [castRay]
    by_cases h1 : 0 ≤ pyTrunc x ∧ pyTrunc x < w ∧ 0 ≤ pyTrunc y ∧ pyTrunc y < h
    · rw [if_pos h1]
      by_cases h2 : g ((pyTrunc x).toNat, (pyTrunc y).toNat) = TileType.wall
      · rw [if_pos h2]
        exact hsub1 q
      · rw [if_neg h2]
        exact ih _ _ _ _ hsub1 q
    · rw [if_neg h1]
      exact hsub q

/-- Radius bound for one ray: a cell newly marked visible lies within
`a + steps` of the (non-negative) anchor on both axes, where `a` bounds
the current float position's offset and each step advances by at most 1
per axis. -/
theorem castRay_vis_bound (g : Grid) (w h : Nat) (px py : Int)
    (hpx : 0 ≤ px) (hpy : 0 ≤ py) (dx dy : ℚ)
    (hdx : |dx| ≤ 1) (hdy : |dy| ≤ 1) :
    ∀ (steps : Nat) (x y : ℚ) (a : Nat),
      |x - (px : ℚ)| ≤ (a : ℚ) → |y - (py : ℚ)| ≤ (a : ℚ) →
      ∀ (vis expl : CellMap) (q : Int × Int),
        (castRay g w h x y dx dy steps vis expl).1 q = true →
        vis q = true ∨
          (|q.1 - px| ≤ ((a : Int) + steps) ∧
            |q.2 - py| ≤ ((a : Int) + steps)) := by
  intro steps
  induction steps with
  | zero =>
    intro x y a hxa hya vis expl q hq
    exact Or.inl hq
  | succ n ih =>
    intro x y a hxa hya vis expl q hq
    have hqmark : markCell vis (pyTrunc x, pyTrunc y) q = true →
        q = (pyTrunc x, pyTrunc y) ∨ vis q = true := by
      intro hm
      unfold markCell at hm
      split at hm
      · left; assumption
      · right; exact hm
    have hbx := pyTrunc_abs_le px hpx x a hxa
    have hby := pyTrunc_abs_le py hpy y a hya
    have hhere : q = (pyTrunc x, pyTrunc y) →
        |q.1 - px| ≤ ((a : Int) + (n + 1)) ∧
          |q.2 - py| ≤ ((a : Int) + (n + 1)) := by
      intro he
      subst he
      constructor
      · simp only
        omega
      · simp only
        omega
    simp only [castRay] at hq
    by_cases h1 : 0 ≤ pyTrunc x ∧ pyTrunc x < w ∧ 0 ≤ pyTrunc y ∧ pyTrunc y < h
    · rw [if_pos h1] at hq
      by_cases h2 : g ((pyTrunc x).toNat, (pyTrunc y).toNat) = TileType.wall
      · rw [if_pos h2] at hq
        rcases hqmark hq with he | hv
        · exact Or.inr (hhere he)
        · exact Or.inl hv
      · rw [if_neg h2] at hq
        have hxa1 : |x + dx - (px : ℚ)| ≤ ((a + 1 : Nat) : ℚ) := by
          have : x + dx - (px : ℚ) = (x - px) + dx := by ring
          rw [this]
          calc |(x - (px : ℚ)) + dx| ≤ |x - (px : ℚ)| + |dx| := abs_add _ _
            _ ≤ (a : ℚ) + 1 := add_le_add hxa hdx
            _ = ((a + 1 : Nat) : ℚ) := by push_cast; ring
        have hya1 : |y + dy - (py : ℚ)| ≤ ((a + 1 : Nat) : ℚ) := by
          have : y + dy - (py : ℚ) = (y - py) + dy := by ring
          rw [this]
          calc |(y - (py : ℚ)) + dy| ≤ |y - (py : ℚ)| + |dy| := abs_add _ _
            _ ≤ (a : ℚ) + 1 := add_le_add hya hdy
            _ = ((a + 1 : Nat) : ℚ) := by push_cast; ring
        rcases ih (x + dx) (y + dy) (a + 1) hxa1 hya1 _ _ q hq with hv | hb
        · rcases hqmark hv with he | hv2
          · exact Or.inr (hhere he)
          · exact Or.inl hv2
        · right
          constructor <;> [skip; skip] <;> omega
    · rw [if_neg h1] at hq
      exact Or.inl hq

/-- Invariants of the per-direction fold of `compute_fov`: visible stays
inside explored, visible cells stay within `radius` of the origin on
both axes, and explored is monotone. -/
theorem fov_fold_inv (g : Grid) (w h : Nat) (px py : Int)
    (hpx : 0 ≤ px) (hpy : 0 ≤ py) (radius : Nat) :
    ∀ (dirs : List (ℚ × ℚ)) (ve : CellMap × CellMap),
      (∀ d ∈ dirs, |d.1| ≤ 1 ∧ |d.2| ≤ 1) →
      (∀ q, ve.1 q = true → ve.2 q = true) →
      (∀ q, ve.1 q = true →
        |q.1 - px| ≤ (radius : Int) ∧ |q.2 - py| ≤ (radius : Int)) →
      (∀ q, (dirs.foldl (fun ve d =>
          castRay g w h (px : ℚ) (py : ℚ) d.1 d.2 radius ve.1 ve.2) ve).1
            q = true →
        (dirs.foldl (fun ve d =>
          castRay g w h (px : ℚ) (py : ℚ) d.1 d.2 radius ve.1 ve.2) ve).2
            q = true) ∧
      (∀ q, (dirs.foldl (fun ve d =>
          castRay g w h (px : ℚ) (py : ℚ) d.1 d.2 radius ve.1 ve.2) ve).1
            q = true →
        |q.1 - px| ≤ (radius : Int) ∧ |q.2 - py| ≤ (radius : Int)) ∧
      (∀ q, ve.2 q = true →
        (dirs.foldl (fun ve d =>
          castRay g w h (px : ℚ) (py : ℚ) d.1 d.2 radius ve.1 ve.2) ve).2
            q = true) := by
  intro dirs
  induction dirs with
  | nil =>
    intro ve _ hsub hbound
    exact ⟨hsub, hbound, fun q hq => hq⟩
  | cons d rest ih =>
    intro ve hd hsub hbound
    rw [List.foldl_cons]
    have hd1 := hd d (List.mem_cons_self _ _)
    have hzero : |(px : ℚ) - (px : ℚ)| ≤ ((0 : Nat) : ℚ) := by simp
    have hzero' : |(py : ℚ) - (py : ℚ)| ≤ ((0 : Nat) : ℚ) := by simp
    have hbound1 : ∀ q,
        (castRay g w h (px : ℚ) (py : ℚ) d.1 d.2 radius ve.1 ve.2).1 q =
          true →
        |q.1 - px| ≤ (radius : Int) ∧ |q.2 - py| ≤ (radius : Int) := by
      intro q hq
      rcases castRay_vis_bound g w h px py hpx hpy d.1 d.2 hd1.1 hd1.2
          radius (px : ℚ) (py : ℚ) 0 hzero hzero' ve.1 ve.2 q hq with hv | hb
      · exact hbound q hv
      · constructor <;> omega
    obtain ⟨i1, i2, i3⟩ :=
      ih (castRay g w h (px : ℚ) (py : ℚ) d.1 d.2 radius ve.1 ve.2)
        (fun d hdm => hd d (List.mem_cons_of_mem _ hdm))
        (fun q hq => castRay_vis_sub_expl g w h d.1 d.2 radius
          (px : ℚ) (py : ℚ) ve.1 ve.2 hsub q hq)
        hbound1
    exact ⟨i1, i2, fun q hq =>
      i3 q (castRay_expl_mono g w h d.1 d.2 radius
        (px : ℚ) (py : ℚ) ve.1 ve.2 q hq)⟩

/-- **C4.** After `compute_fov(origin, radius)` with a direction table
bounded by 1 per axis (as cos/sin are): every visible cell is explored;
no cell farther than `radius` from the origin on either axis is visible
(the visible map is rebuilt from all-false, so it only holds cells the
rays of this call reached); and previously explored cells stay explored. -/
theorem claim_c4 (g : Grid) (w h : Nat) (expl0 : CellMap) (px py : Int)
    (radius : Nat) (dirs : List (ℚ × ℚ)) (hpx : 0 ≤ px) (hpy : 0 ≤ py)
    (hdirs : ∀ d ∈ dirs, |d.1| ≤ 1 ∧ |d.2| ≤ 1) :
    (∀ q, (compute_fov g w h expl0 px py radius dirs).1 q = true →
      (compute_fov g w h expl0 px py radius dirs).2 q = true) ∧
    (∀ q, (compute_fov g w h expl0 px py radius dirs).1 q = true →
      |q.1 - px| ≤ (radius : Int) ∧ |q.2 - py| ≤ (radius : Int)) ∧
    (∀ q, expl0 q = true →
      (compute_fov g w h expl0 px py radius dirs).2 q = true) := by
  have hinv := fov_fold_inv g w h px py hpx hpy radius dirs
    (fun _ => false, expl0) hdirs
    (fun q hq => Bool.noConfusion hq)
    (fun q hq => Bool.noConfusion hq)
  exact hinv

/-- Witness for C4 on a concrete grid with a single axis direction. -/
theorem claim_c4_witness :
    ((0 : Int) ≤ 2 ∧ (0 : Int) ≤ 3 ∧
      (∀ d ∈ [((1 : ℚ), (0 : ℚ))], |d.1| ≤ 1 ∧ |d.2| ≤ 1)) ∧
    ((∀ q, (compute_fov testGrid 10 10 (fun _ => false) 2 3 4
        [((1 : ℚ), (0 : ℚ))]).1 q = true →
      (compute_fov testGrid 10 10 (fun _ => false) 2 3 4
        [((1 : ℚ), (0 : ℚ))]).2 q = true) ∧
    (∀ q, (compute_fov testGrid 10 10 (fun _ => false) 2 3 4
        [((1 : ℚ), (0 : ℚ))]).1 q = true →
      |q.1 - 2| ≤ (4 : Int) ∧ |q.2 - 3| ≤ (4 : Int)) ∧
    (∀ q, (fun _ => false : CellMap) q = true →
      (compute_fov testGrid 10 10 (fun _ => false) 2 3 4
        [((1 : ℚ), (0 : ℚ))]).2 q = true)) := by
  constructor
  · refine ⟨by norm_num, by norm_num, ?_⟩
    intro d hd
    simp only [List.mem_singleton] at hd
    subst hd
    norm_num
  · refine claim_c4 testGrid 10 10 (fun _ => false) 2 3 4 _
      (by norm_num) (by norm_num) ?_
    intro d hd
    simp only [List.mem_singleton] at hd
    subst hd
    norm_num

/-! ## C5: single occupancy of tiles -/

/-- At most one entity per tile: no living enemy stands on the player's
tile, and no two living enemies share a tile. -/
def OccInv (γ : Game) : Prop :=
  (∀ i (hi : i < γ.enemies.length),
    (γ.enemies.get ⟨i, hi⟩).is_alive = true →
    ¬((γ.enemies.get ⟨i, hi⟩).x = γ.player.x ∧
      (γ.enemies.get ⟨i, hi⟩).y = γ.player.y)) ∧
  (∀ i (hi : i < γ.enemies.length), ∀ j (hj : j < γ.enemies.length),
    i ≠ j →
    (γ.enemies.get ⟨i, hi⟩).is_alive = true →
    (γ.enemies.get ⟨j, hj⟩).is_alive = true →
    ¬((γ.enemies.get ⟨i, hi⟩).x = (γ.enemies.get ⟨j, hj⟩).x ∧
      (γ.enemies.get ⟨i, hi⟩).y = (γ.enemies.get ⟨j, hj⟩).y))

instance (γ : Game) : Decidable (OccInv γ) := by
  unfold OccInv
  infer_instance

/-- What `_is_occupied(x, y) == False` means: the player is not at
`(x, y)` and no living enemy is at `(x, y)`. -/
theorem not_occupied_spec (γ : Game) (x y : Int)
    (h : is_occupied γ x y = false) :
    ¬(γ.player.x = x ∧ γ.player.y = y) ∧
    ∀ e ∈ γ.enemies, e.is_alive = true → ¬(e.x = x ∧ e.y = y) := by
  unfold is_occupied at h
  rw [Bool.or_eq_false_iff] at h
  obtain ⟨h1, h2⟩ := h
  constructor
  · intro ⟨hx, hy⟩
    rw [hx, hy] at h1
    simp at h1
  · intro e hmem halive ⟨hx, hy⟩
    rw [List.any_eq_false] at h2
    have := h2 e hmem
    rw [hx, hy, halive] at this
    simp at this

/-- A state with the same enemy list and player position inherits the
occupancy invariant. -/
theorem occ_keep (γ γ' : Game) (he : γ'.enemies = γ.enemies)
    (hx : γ'.player.x = γ.player.x) (hy : γ'.player.y = γ.player.y)
    (hocc : OccInv γ) : OccInv γ' := by
  unfold OccInv at hocc ⊢
  constructor
  · intro i hi
    have hi' : i < γ.enemies.length := by rw [← he]; exact hi
    have hg : γ'.enemies.get ⟨i, hi⟩ = γ.enemies.get ⟨i, hi'⟩ := by
      simp only [List.get_eq_getElem]
      exact List.getElem_of_eq he hi
    rw [hg, hx, hy]
    exact hocc.1 i hi'
  · intro i hi j hj
    have hi' : i < γ.enemies.length := by rw [← he]; exact hi
    have hj' : j < γ.enemies.length := by rw [← he]; exact hj
    have hgi : γ'.enemies.get ⟨i, hi⟩ = γ.enemies.get ⟨i, hi'⟩ := by
      simp only [List.get_eq_getElem]
      exact List.getElem_of_eq he hi
    have hgj : γ'.enemies.get ⟨j, hj⟩ = γ.enemies.get ⟨j, hj'⟩ := by
      simp only [List.get_eq_getElem]
      exact List.getElem_of_eq he hj
    rw [hgi, hgj]
    exact hocc.2 i hi' j hj'

/-- Moving the enemy at index `i` to an unoccupied tile (its aliveness
unchanged) preserves the occupancy invariant. -/
theorem occ_set_move (γ : Game) (i : Nat) (hi : i < γ.enemies.length)
    (e' : Enemy) (hocc : OccInv γ)
    (halive : e'.is_alive = (γ.enemies.get ⟨i, hi⟩).is_alive)
    (hno : is_occupied γ e'.x e'.y = false) :
    OccInv { γ with enemies := γ.enemies.set i e' } := by
  obtain ⟨hnp, hne⟩ := not_occupied_spec γ e'.x e'.y hno
  have hget : ∀ (j : Nat) (hj : j < (γ.enemies.set i e').length),
      (γ.enemies.set i e').get ⟨j, hj⟩ =
        if i = j then e'
        else γ.enemies.get ⟨j, by simpa using hj⟩ := by
    intro j hj
    rw [List.get_eq_getElem, List.getElem_set]
    split
    · rfl
    · rw [List.get_eq_getElem]
  unfold OccInv
  constructor
  · intro j hj
    rw [hget j hj]
    split
    case isTrue hij =>
      intro _ ⟨hx, hy⟩
      exact hnp ⟨hx.symm, hy.symm⟩
    case isFalse hij =>
      exact hocc.1 j (by simpa using hj)
  · intro j hj k hk hjk
    rw [hget j hj, hget k hk]
    by_cases hij : i = j
    · rw [if_pos hij]
      have hik : ¬ i = k := by omega
      rw [if_neg hik]
      intro halive' halivek ⟨hx, hy⟩
      have hk' : k < γ.enemies.length := by simpa using hk
      exact hne (γ.enemies.get ⟨k, hk'⟩) (List.get_mem _ _ _)
        halivek ⟨hx.symm, hy.symm⟩
    · rw [if_neg hij]
      by_cases hik : i = k
      · rw [if_pos hik]
        intro halivej _ ⟨hx, hy⟩
        have hj' : j < γ.enemies.length := by simpa using hj
        exact hne (γ.enemies.get ⟨j, hj'⟩) (List.get_mem _ _ _)
          halivej ⟨hx, hy⟩
      · rw [if_neg hik]
        exact hocc.2 j (by simpa using hj) k (by simpa using hk) hjk

/-- Appending an enemy on an unoccupied walkable tile preserves the
occupancy invariant. -/
theorem occ_append (γ : Game) (e : Enemy) (hocc : OccInv γ)
    (hno : is_occupied γ e.x e.y = false) :
    OccInv { γ with enemies := γ.enemies ++ [e] } := by
  obtain ⟨hnp, hne⟩ := not_occupied_spec γ e.x e.y hno
  have hlen : (γ.enemies ++ [e]).length = γ.enemies.length + 1 := by
    simp
  have hget : ∀ (j : Nat) (hj : j < (γ.enemies ++ [e]).length),
      (γ.enemies ++ [e]).get ⟨j, hj⟩ =
        if hlt : j < γ.enemies.length then γ.enemies.get ⟨j, hlt⟩ else e := by
    intro j hj
    split
    case isTrue hlt =>
      rw [List.get_eq_getElem, List.getElem_append_left hlt,
        List.get_eq_getElem]
    case isFalse hlt =>
      have hj' : j = γ.enemies.length := by
        rw [hlen] at hj
        omega
      subst hj'
      rw [List.get_eq_getElem]
      exact List.getElem_concat_length _ _ _ rfl _
  unfold OccInv
  constructor
  · intro j hj
    rw [hget j hj]
    split
    case isTrue hlt => exact hocc.1 j hlt
    case isFalse hlt =>
      intro _ ⟨hx, hy⟩
      exact hnp ⟨hx.symm, hy.symm⟩
  · intro j hj k hk hjk
    rw [hget j hj, hget k hk]
    by_cases hltj : j < γ.enemies.length
    · rw [dif_pos hltj]
      by_cases hltk : k < γ.enemies.length
      · rw [dif_pos hltk]
        exact hocc.2 j hltj k hltk hjk
      · rw [dif_neg hltk]
        intro halivej _ ⟨hx, hy⟩
        exact hne (γ.enemies.get ⟨j, hltj⟩) (List.get_mem _ _ _)
          halivej ⟨hx, hy⟩
    · rw [dif_neg hltj]
      have hjl : j = γ.enemies.length := by
        rw [hlen] at hj
        omega
      by_cases hltk : k < γ.enemies.length
      · rw [dif_pos hltk]
        intro _ halivek ⟨hx, hy⟩
        exact hne (γ.enemies.get ⟨k, hltk⟩) (List.get_mem _ _ _)
          halivek ⟨hx.symm, hy.symm⟩
      · exfalso
        rw [hlen] at hk
        omega

/-- One `_enemy_turn` slice preserves the occupancy invariant: an enemy
either stays, attacks without moving, or moves to a tile checked
unoccupied. -/
theorem enemy_turn_step_occ (γ : Game) (i : Nat) (r : ETurnRng)
    (hocc : OccInv γ) : OccInv (enemy_turn_step γ i r) := by
  unfold enemy_turn_step
  cases hi : γ.enemies[i]? with
  | none => exact hocc
  | some e =>
    simp only
    split
    · exact hocc
    · split
      · exact hocc
      · split
        · split
          · exact occ_keep γ _ rfl rfl rfl hocc
          · exact occ_keep γ _ rfl rfl rfl hocc
        · split
          case isTrue hmv =>
            rw [Bool.and_eq_true] at hmv
            have hno : is_occupied γ
                (e.x + (chase_step γ e r).1)
                (e.y + (chase_step γ e r).2) = false := by
              have := hmv.2
              rwa [Bool.not_eq_eq_eq_not, Bool.not_true] at this
            have hlen : i < γ.enemies.length := by
              by_contra hc
              rw [List.getElem?_eq_none (by omega)] at hi
              exact Option.noConfusion hi
            have hval : γ.enemies.get ⟨i, hlen⟩ = e := by
              rw [List.get_eq_getElem]
              rw [List.getElem?_eq_getElem hlen] at hi
              exact Option.some.inj hi
            exact occ_set_move γ i hlen _ hocc (by rw [hval]; rfl) hno
          case isFalse => exact hocc

/-- The enemy standing on the only room's center in the C5 states. -/
def c5Enemy : Enemy :=
  { x := 4, y := 4, hp := 10, max_hp := 10, attack := 4, defense := 1
    exp_value := 10, is_boss := false }

/-- C5 teleport state: player far away holding a teleport scroll, one
living enemy on the center of the only room. -/
def c5TeleGame : Game :=
  { baseGame with
    rooms := [⟨2, 2, 5, 5⟩]
    enemies := [c5Enemy]
    player := { testPlayer with
      x := 0
      y := 0
      inventory := [{ x := 0, y := 0, item_type := ItemType.scroll_teleport
                      value := 0, rarity := 2 }] } }

/-- C5 boss state: a boss level with one living enemy on the boss room's
center. -/
def c5BossGame : Game :=
  { baseGame with
    dungeon_level := 5
    rooms := [⟨2, 2, 5, 5⟩]
    enemies := [c5Enemy] }

/-- **C5 counterexample.** The claim fails on the code: relocating the
player with a teleport scroll and placing a boss both skip the occupancy
check. Concretely, with one living enemy standing on the only room's
center (4, 4), the invariant holds before and is violated after the
teleport; and on a boss level (`dungeon_level % 5 == 0`)
`_spawn_enemies` appends the boss onto the room center already occupied
by a living enemy. -/
theorem claim_c5_counterexample :
    OccInv c5TeleGame ∧
    (use_item c5TeleGame 0 0 [] []).isSome = true ∧
    ¬ OccInv ((use_item c5TeleGame 0 0 [] []).getD baseGame) ∧
    OccInv c5BossGame ∧
    ¬ OccInv (spawn_boss c5BossGame) := by
  refine ⟨by decide, by decide, by decide, by decide, by decide⟩

/-- **C5 (amended).** At most one entity occupies a tile after the
operations that check occupancy: the enemy turn (enemies move only to
tiles that are walkable and unoccupied) and regular enemy placement
(candidates are dropped on occupied tiles). Boss placement and teleport
relocation perform no such check and can co-locate two entities (see the
counterexample). -/
theorem claim_c5 (γ : Game) (hocc : OccInv γ) :
    (∀ rng : Nat → ETurnRng, OccInv (enemy_turn γ rng)) ∧
    (∀ cands : List Enemy, OccInv (spawn_enemies_regular γ cands)) := by
  constructor
  · intro rng
    unfold enemy_turn
    generalize List.range γ.enemies.length = l
    induction l generalizing γ with
    | nil => exact hocc
    | cons a rest ih =>
      rw [List.foldl_cons]
      exact ih _ (enemy_turn_step_occ γ a (rng a) hocc)
  · intro cands
    unfold spawn_enemies_regular
    induction cands generalizing γ with
    | nil => exact hocc
    | cons e rest ih =>
      rw [List.foldl_cons]
      refine ih _ ?_
      unfold spawn_enemy_step
      split
      case isTrue hc =>
        rw [Bool.and_eq_true] at hc
        refine occ_append γ e hocc ?_
        have := hc.2
        rwa [Bool.not_eq_eq_eq_not, Bool.not_true] at this
      case isFalse => exact hocc

/-- C5 witness state: one living enemy away from the player. -/
def c5WitGame : Game :=
  { baseGame with
    enemies := [{ x := 5, y := 5, hp := 10, max_hp := 10, attack := 4
                  defense := 1, exp_value := 10, is_boss := false }] }

/-- Witness for the amended C5 at a concrete one-enemy state. -/
theorem claim_c5_witness :
    OccInv c5WitGame ∧
    ((∀ rng : Nat → ETurnRng, OccInv (enemy_turn c5WitGame rng)) ∧
    (∀ cands : List Enemy, OccInv (spawn_enemies_regular c5WitGame cands))) :=
  ⟨by decide, claim_c5 _ (by decide)⟩

/-! ## C6: hit-point and mana bounds -/

/-- The melee formula's output is positive. -/
theorem one_le_melee_damage (atk dfn v : Int) : 1 ≤ melee_damage atk dfn v :=
  le_max_left _ _

/-- Player damage (crit or not) is positive. -/
theorem one_le_player_attack_damage (atk dfn v : Int) (c : Bool) :
    1 ≤ player_attack_damage atk dfn v c := by
  have := one_le_melee_damage atk dfn v
  unfold player_attack_damage
  cases c
  · exact this
  · simp only [if_pos]
    omega

/-- Enemy damage is positive. -/
theorem one_le_enemy_attack_damage (atk dfn v : Int) :
    1 ≤ enemy_attack_damage atk dfn v :=
  one_le_melee_damage atk dfn v

/-- The player-side stat bounds: hp at most max, mana within [0, max]. -/
def PBounds (p : Player) : Prop :=
  p.hp ≤ p.max_hp ∧ 0 ≤ p.mana ∧ p.mana ≤ p.max_mana

instance (p : Player) : Decidable (PBounds p) := by
  unfold PBounds
  infer_instance

/-- The stat bounds the amended C6 asserts: player hp/mana bounds plus
every enemy's hp at most its max. -/
def StatBounds (γ : Game) : Prop :=
  PBounds γ.player ∧ ∀ e ∈ γ.enemies, e.hp ≤ e.max_hp

instance (γ : Game) : Decidable (StatBounds γ) := by
  unfold StatBounds
  infer_instance

/-- Level-up tops hp and mana up clamped to the (grown) maxima, so the
bounds survive. -/
theorem pbounds_level_up (p : Player) (g : Gains) (h : PBounds p) :
    PBounds (p.level_up g) := by
  simp only [PBounds, Player.level_up] at h ⊢
  omega

/-- The level-up loop preserves the player stat bounds. -/
theorem pbounds_gain_exp_loop (p : Player) (gs : List Gains) (b : Bool)
    (h : PBounds p) : PBounds (gain_exp_loop p gs b).1 := by
  induction p, gs, b using gain_exp_loop.induct with
  | case1 p gs b hc ih =>
    rw [gain_exp_loop, dif_pos hc]
    exact ih (pbounds_level_up _ _ h)
  | case2 p gs b hc =>
    rw [gain_exp_loop, dif_neg hc]
    exact h

/-- `gain_exp` preserves the player stat bounds. -/
theorem pbounds_gain_exp (p : Player) (amount : Nat) (gs : List Gains)
    (h : PBounds p) : PBounds (p.gain_exp amount gs).1 :=
  pbounds_gain_exp_loop _ _ _ h

/-- Subtracting a non-negative amount from one enemy's hp keeps the
enemy-list bound. -/
theorem ebounds_set_damage (es : List Enemy) (i : Nat) (e : Enemy)
    (hi : es[i]? = some e) (d : Int) (hd : 0 ≤ d)
    (he : ∀ e' ∈ es, e'.hp ≤ e'.max_hp) :
    ∀ e' ∈ es.set i { e with hp := e.hp - d }, e'.hp ≤ e'.max_hp := by
  intro e' he'
  rcases List.mem_or_eq_of_mem_set he' with hin | heq
  · exact he e' hin
  · subst heq
    have := he e (List.getElem?_mem hi)
    dsimp only
    omega

/-- `attack_enemy` preserves the stat bounds (enemy hp only decreases;
the player only gains experience and gold). -/
theorem attack_enemy_bounds (γ : Game) (i : Nat) (v : Int) (c : Bool)
    (gr : Bool) (gb : Nat) (gs : List Gains) (h : StatBounds γ) :
    StatBounds (attack_enemy γ i v c gr gb gs) := by
  obtain ⟨hp, he⟩ := h
  unfold attack_enemy
  cases hi : γ.enemies[i]? with
  | none => exact ⟨hp, he⟩
  | some e =>
    simp only
    have hdmg := one_le_player_attack_damage
      (γ.player.get_total_attack : Int) (e.defense : Int) v c
    have hset := ebounds_set_damage γ.enemies i e hi
      (player_attack_damage (γ.player.get_total_attack : Int)
        (e.defense : Int) v c) (by omega) he
    split
    · exact ⟨hp, hset⟩
    · split
      · exact ⟨pbounds_gain_exp _ _ _ hp, hset⟩
      · exact ⟨pbounds_gain_exp _ _ _ hp, hset⟩

/-- One enemy-turn slice preserves the stat bounds (the player's hp
only decreases; a moving enemy keeps its hp). -/
theorem enemy_turn_step_bounds (γ : Game) (i : Nat) (r : ETurnRng)
    (h : StatBounds γ) : StatBounds (enemy_turn_step γ i r) := by
  obtain ⟨hp, he⟩ := h
  unfold enemy_turn_step
  cases hi : γ.enemies[i]? with
  | none => exact ⟨hp, he⟩
  | some e =>
    simp only
    split
    · exact ⟨hp, he⟩
    · split
      · exact ⟨hp, he⟩
      · split
        · have hdmg := one_le_enemy_attack_damage (e.attack : Int)
            (γ.player.get_total_defense : Int) r.variance
          have hp1 : PBounds { γ.player with
              hp := γ.player.hp - enemy_attack_damage (e.attack : Int)
                (γ.player.get_total_defense : Int) r.variance } := by
            unfold PBounds at hp ⊢
            dsimp only
            omega
          split
          · exact ⟨hp1, he⟩
          · exact ⟨hp1, he⟩
        · split
          · refine ⟨hp, ?_⟩
            intro e' he'
            rcases List.mem_or_eq_of_mem_set he' with hin | heq
            · exact he e' hin
            · subst heq
              exact he e (List.getElem?_mem hi)
          · exact ⟨hp, he⟩

/-- The whole enemy turn preserves the stat bounds. -/
theorem enemy_turn_bounds (γ : Game) (rng : Nat → ETurnRng)
    (h : StatBounds γ) : StatBounds (enemy_turn γ rng) := by
  unfold enemy_turn
  generalize List.range γ.enemies.length = l
  induction l generalizing γ with
  | nil => exact h
  | cons a rest ih =>
    rw [List.foldl_cons]
    exact ih _ (enemy_turn_step_bounds γ a (rng a) h)

/-- One fireball-scroll iteration preserves the bounds. -/
theorem scroll_step_bounds (vis : CellMap) (damage : Nat)
    (acc : Player × List Enemy × Nat × List Gains) (i : Nat)
    (hp : PBounds acc.1) (he : ∀ e ∈ acc.2.1, e.hp ≤ e.max_hp) :
    PBounds (scroll_fireball_step vis damage acc i).1 ∧
    ∀ e ∈ (scroll_fireball_step vis damage acc i).2.1,
      e.hp ≤ e.max_hp := by
  unfold scroll_fireball_step
  cases hi : acc.2.1[i]? with
  | none => exact ⟨hp, he⟩
  | some e =>
    simp only
    have hset := ebounds_set_damage acc.2.1 i e hi (damage : Int)
      (by omega) he
    split
    · split
      · exact ⟨pbounds_gain_exp _ _ _ hp, hset⟩
      · exact ⟨hp, hset⟩
    · exact ⟨hp, he⟩

/-- The fireball-scroll fold preserves the bounds. -/
theorem scroll_fold_bounds (vis : CellMap) (damage : Nat) :
    ∀ (l : List Nat) (acc : Player × List Enemy × Nat × List Gains),
      PBounds acc.1 → (∀ e ∈ acc.2.1, e.hp ≤ e.max_hp) →
      PBounds (l.foldl (scroll_fireball_step vis damage) acc).1 ∧
      ∀ e ∈ (l.foldl (scroll_fireball_step vis damage) acc).2.1,
        e.hp ≤ e.max_hp := by
  intro l
  induction l with
  | nil => intro acc hp he; exact ⟨hp, he⟩
  | cons a rest ih =>
    intro acc hp he
    rw [List.foldl_cons]
    obtain ⟨hp1, he1⟩ := scroll_step_bounds vis damage acc a hp he
    exact ih _ hp1 he1

/-- `use_item_entry` (every item-type branch) preserves the bounds. -/
theorem use_item_entry_bounds (γ : Game) (item : Item)
    (popped : List Item) (rc : Nat) (dirs : List (ℚ × ℚ))
    (gs : List Gains) (γ' : Game)
    (hsome : use_item_entry γ item popped rc dirs gs = some γ')
    (h : StatBounds γ) : StatBounds γ' := by
  obtain ⟨hp, he⟩ := h
  unfold use_item_entry at hsome
  cases hty : item.item_type <;> rw [hty] at hsome
  case health_potion =>
    rw [Option.some.injEq] at hsome
    subst hsome
    refine ⟨?_, he⟩
    unfold PBounds at hp ⊢
    dsimp only
    omega
  case mana_potion =>
    rw [Option.some.injEq] at hsome
    subst hsome
    refine ⟨?_, he⟩
    unfold PBounds at hp ⊢
    dsimp only
    omega
  case scroll_fireball =>
    rw [Option.some.injEq] at hsome
    subst hsome
    obtain ⟨hp1, he1⟩ := scroll_fold_bounds γ.visible
      (item.value + γ.player.magic) (List.range γ.enemies.length)
      (γ.player, γ.enemies, 0, gs) hp he
    exact ⟨hp1, he1⟩
  case scroll_teleport =>
    cases hrooms : γ.rooms with
    | nil =>
      rw [hrooms, Option.some.injEq] at hsome
      subst hsome
      exact ⟨hp, he⟩
    | cons r0 rest =>
      rw [hrooms] at hsome
      rw [Option.some.injEq] at hsome
      subst hsome
      exact ⟨hp, he⟩
  case sword =>
    cases hw : γ.player.weapon <;> rw [hw] at hsome <;>
      rw [Option.some.injEq] at hsome <;> subst hsome <;> exact ⟨hp, he⟩
  case shield =>
    cases hw : γ.player.shield <;> rw [hw] at hsome <;>
      rw [Option.some.injEq] at hsome <;> subst hsome <;> exact ⟨hp, he⟩
  case armor =>
    cases hw : γ.player.armor <;> rw [hw] at hsome <;>
      rw [Option.some.injEq] at hsome <;> subst hsome <;> exact ⟨hp, he⟩
  case ring =>
    cases hw : γ.player.ring <;> rw [hw] at hsome <;>
      rw [Option.some.injEq] at hsome <;> subst hsome <;> exact ⟨hp, he⟩
  case gold =>
    rw [Option.some.injEq] at hsome
    subst hsome
    exact ⟨hp, he⟩

/-- `use_item` preserves the bounds whenever it returns a state. -/
theorem use_item_bounds (γ : Game) (index : Int) (rc : Nat)
    (dirs : List (ℚ × ℚ)) (gs : List Gains) (γ' : Game)
    (hsome : use_item γ index rc dirs gs = some γ')
    (h : StatBounds γ) : StatBounds γ' := by
  simp only [use_item] at hsome
  by_cases h1 : ((γ.player.inventory.length : Int) ≤ index)
  · rw [if_pos h1, Option.some.injEq] at hsome
    subst hsome
    exact h
  · rw [if_neg h1] at hsome
    by_cases h2 : (0 ≤ (if index < 0 then
        index + (γ.player.inventory.length : Int) else index) ∧
      (if index < 0 then
        index + (γ.player.inventory.length : Int) else index) <
        (γ.player.inventory.length : Int))
    · rw [if_pos h2] at hsome
      cases hj : γ.player.inventory[(if index < 0 then
          index + (γ.player.inventory.length : Int) else
            index).toNat]? with
      | none => rw [hj] at hsome; exact Option.noConfusion hsome
      | some item =>
        rw [hj] at hsome
        exact use_item_entry_bounds γ item _ rc dirs gs γ' hsome h
    · rw [if_neg h2] at hsome
      exact Option.noConfusion hsome

/-- `cast_spell` preserves the bounds: heal clamps to max hp and only
spends affordable mana; fireball reduces one enemy's hp and spends
affordable mana. -/
theorem cast_spell_bounds (γ : Game) (k : SpellKind) (gs : List Gains)
    (h : StatBounds γ) : StatBounds (cast_spell γ k gs) := by
  obtain ⟨hp, he⟩ := h
  cases k with
  | heal =>
    simp only [cast_spell]
    split
    case isTrue hm =>
      refine ⟨?_, he⟩
      unfold PBounds at hp ⊢
      dsimp only
      omega
    case isFalse => exact ⟨hp, he⟩
  | fireball =>
    simp only [cast_spell]
    split
    case isTrue hm =>
      cases hcl : closest_enemy_idx γ with
      | none => exact ⟨hp, he⟩
      | some i =>
        dsimp only
        cases hi : γ.enemies[i]? with
        | none => exact ⟨hp, he⟩
        | some e =>
          dsimp only
          have hset := ebounds_set_damage γ.enemies i e hi
            ((20 + γ.player.magic * 2 : Nat) : Int) (by omega) he
          have hp1 : PBounds { γ.player with mana := γ.player.mana - 30 } := by
            unfold PBounds at hp ⊢
            dsimp only
            omega
          split
          · exact ⟨pbounds_gain_exp _ _ _ hp1, hset⟩
          · exact ⟨hp1, hset⟩
    case isFalse => exact ⟨hp, he⟩

/-- C6 counterexample state for a player melee attack: a weak enemy with
1 hp against attack 15. -/
def c6AttackGame : Game :=
  { baseGame with
    enemies := [{ x := 3, y := 2, hp := 1, max_hp := 15, attack := 4
                  defense := 1, exp_value := 10, is_boss := false }] }

/-- C6 counterexample state for the enemy turn: the player at 1 hp next
to an enemy with attack 30. -/
def c6TurnGame : Game :=
  { baseGame with
    player := { testPlayer with hp := 1 }
    enemies := [{ x := 3, y := 2, hp := 40, max_hp := 40, attack := 30
                  defense := 1, exp_value := 10, is_boss := false }] }

/-- **C6 counterexample.** Damage is subtracted with no lower clamp:
`attack_enemy` leaves the 1-hp enemy at −13 hp
(`max(1, 15 − 1 + 0) = 14` damage), and the enemy turn leaves the 1-hp
player at −26 hp (`max(1, 30 − 3 + 0) = 27` damage), so hit points do
drop below 0 even though both states satisfied the bounds before. -/
theorem claim_c6_counterexample :
    StatBounds c6AttackGame ∧
    (attack_enemy c6AttackGame 0 0 false false 0 []).enemies.map
      Enemy.hp = [-13] ∧
    ¬ (∀ e ∈ (attack_enemy c6AttackGame 0 0 false false 0 []).enemies,
      0 ≤ e.hp) ∧
    StatBounds c6TurnGame ∧
    (enemy_turn c6TurnGame (fun _ => ⟨false, 0, 0⟩)).player.hp = -26 ∧
    ¬ (0 ≤ (enemy_turn c6TurnGame (fun _ => ⟨false, 0, 0⟩)).player.hp) := by
  refine ⟨by decide, by decide, by decide, by decide, by decide, by decide⟩

/-- **C6 (amended).** Under melee attacks, the enemy turn, item use
(potions, scrolls, equipment) and spells, hit points and mana never
exceed their maxima and mana never drops below 0 (healing and
restoration clamp with `min`, mana is spent only when affordable); hit
points, however, are not clamped below: lethal damage leaves a negative
stored value (the entity merely counts as dead, see the counterexample). -/
theorem claim_c6 (γ : Game) (h : StatBounds γ) :
    (∀ (i : Nat) (v : Int) (c gr : Bool) (gb : Nat) (gs : List Gains),
      StatBounds (attack_enemy γ i v c gr gb gs)) ∧
    (∀ rng : Nat → ETurnRng, StatBounds (enemy_turn γ rng)) ∧
    (∀ (index : Int) (rc : Nat) (dirs : List (ℚ × ℚ)) (gs : List Gains)
      (γ' : Game),
      use_item γ index rc dirs gs = some γ' → StatBounds γ') ∧
    (∀ (k : SpellKind) (gs : List Gains), StatBounds (cast_spell γ k gs)) :=
  ⟨fun i v c gr gb gs => attack_enemy_bounds γ i v c gr gb gs h,
   fun rng => enemy_turn_bounds γ rng h,
   fun index rc dirs gs γ' hs => use_item_bounds γ index rc dirs gs γ' hs h,
   fun k gs => cast_spell_bounds γ k gs h⟩

/-- C6 witness state: one healthy enemy and the base player. -/
def c6WitGame : Game :=
  { baseGame with
    enemies := [{ x := 6, y := 6, hp := 15, max_hp := 15, attack := 4
                  defense := 1, exp_value := 10, is_boss := false }] }

/-- Witness for the amended C6. -/
theorem claim_c6_witness :
    StatBounds c6WitGame ∧
    ((∀ (i : Nat) (v : Int) (c gr : Bool) (gb : Nat) (gs : List Gains),
      StatBounds (attack_enemy c6WitGame i v c gr gb gs)) ∧
    (∀ rng : Nat → ETurnRng, StatBounds (enemy_turn c6WitGame rng)) ∧
    (∀ (index : Int) (rc : Nat) (dirs : List (ℚ × ℚ)) (gs : List Gains)
      (γ' : Game),
      use_item c6WitGame index rc dirs gs = some γ' → StatBounds γ') ∧
    (∀ (k : SpellKind) (gs : List Gains),
      StatBounds (cast_spell c6WitGame k gs))) :=
  ⟨by decide, claim_c6 _ (by decide)⟩

end Lyceum
